import Mathlib

namespace GDrive

/-!
Verification of the sync core of the obsidian-gdrive-vault plugin.

The definitions below are a shallow embedding of the TypeScript source:
  * `src/sync/meta.ts`   — glob exclusion (`matchGlob`, `shouldExclude`),
    snapshot building (`buildMetaFromVault`), conflict / untracked
    filename generation;
  * `src/sync/sync-engine.ts` — the reconciliation engine
    (`computeDiff`, `pushChanges` gate, `performPush`, `pullChanges`,
    `performPull`, `pushAll`, `pullAll`).

File content is represented by its SHA-256 digest: the engine compares
files exclusively through `calculateHash`, so a vault file is modelled
by its path, its content hash and its modification time.  Effectful
operations (network transfers, local writes and deletes, snapshot
commits) are modelled as an explicit trace of operations (`Op`).
-/

/-! ## Glob matching (`src/sync/meta.ts`, `matchGlob` / `shouldExclude`)

`matchGlob` trims the pattern, rejects the empty pattern, translates the
glob into a regular expression (`**` → `.*`, `*` → `[^/]*`, `?` → `[^/]`,
every other character escaped to a literal) and tests the path against
it, anchoring at the start exactly when the pattern does not start with
`*`.  The regular expression is never anchored at the end.  We embed the
compiled regex as a token list and give it a matching semantics with the
same prefix/substring search behaviour as `RegExp.test`. -/

/-- One token of the compiled pattern: a literal character, `?`
(`[^/]`), `*` (`[^/]*`) or `**` (`.*`). -/
inductive GItem where
  | lit (c : Char)
  | qmark
  | star
  | globstar
deriving DecidableEq, Repr

/-- Tokenisation of the trimmed glob pattern, mirroring the replace
chain in `matchGlob`: `**` (leftmost, non-overlapping) becomes `.*`,
a single `*` becomes `[^/]*`, `?` becomes `[^/]`, and every remaining
character is escaped into a literal. -/
def tokenize : List Char → List GItem
  | [] => []
  | '*' :: '*' :: rest => .globstar :: tokenize rest
  | '*' :: rest => .star :: tokenize rest
  | '?' :: rest => .qmark :: tokenize rest
  | c :: rest => .lit c :: tokenize rest

/-- `gmatch ts s` holds when the token list matches some *prefix* of
`s` — the compiled regex has a `^` anchor (when applicable) but no `$`
anchor, so `RegExp.test` succeeds as soon as a prefix matches. -/
def gmatch : List GItem → List Char → Bool
  | [], _ => true
  | .lit _ :: _, [] => false
  | .lit c :: ts, c' :: s' => c == c' && gmatch ts s'
  | .qmark :: _, [] => false
  | .qmark :: ts, c' :: s' => !(c' == '/') && gmatch ts s'
  | .star :: ts, s =>
      (List.range (s.length + 1)).any fun k =>
        ((s.take k).all fun c => !(c == '/')) && gmatch ts (s.drop k)
  | .globstar :: ts, s =>
      (List.range (s.length + 1)).any fun k => gmatch ts (s.drop k)

/-- Unanchored search: `RegExp.test` without `^` tries every start
position in the path. -/
def searchMatch (ts : List GItem) : List Char → Bool
  | [] => gmatch ts []
  | c :: s' => gmatch ts (c :: s') || searchMatch ts s'

/-- Whitespace trimming of the pattern (`pattern.trim()` in JS):
leading and trailing whitespace characters are removed. -/
def trimChars (s : List Char) : List Char :=
  ((s.dropWhile Char.isWhitespace).reverse.dropWhile Char.isWhitespace).reverse

/-- `matchGlob` from `src/sync/meta.ts`: trim the pattern, fail on the
empty pattern, compile and test; the regex is anchored at the start iff
the trimmed pattern does not start with `*`. -/
def matchGlob (path pattern : String) : Bool :=
  match trimChars pattern.toList with
  | [] => false
  | c :: rest =>
    let ts := tokenize (c :: rest)
    if c = '*' then searchMatch ts path.toList
    else gmatch ts path.toList

/-- `shouldExclude` from `src/sync/meta.ts`: a path is excluded when it
matches any pattern of the exclusion list. -/
def shouldExclude (filePath : String) (patterns : List String) : Bool :=
  patterns.any fun pattern => matchGlob filePath pattern

/-! ## Data model (`src/sync/types.ts`)

A vault file is modelled by its path, the SHA-256 digest of its content
(`calculateHash` of its bytes) and its modification time; a remote
object additionally carries its opaque Drive id and the digest of its
current remote bytes (used when a download is re-hashed locally). -/

/-- `FileMetadata` from `src/sync/types.ts`. -/
structure FileMetadata where
  hash : String
  modifiedTime : String
deriving DecidableEq, Repr

/-- `SyncMeta` from `src/sync/types.ts`; `files` is the JS object
`path → FileMetadata`, kept as an insertion-ordered association list
with unique keys. -/
structure SyncMeta where
  lastUpdatedAt : String
  lastSyncTimestamp : String
  files : List (String × FileMetadata)
deriving DecidableEq, Repr

/-- `meta.files[path]` — association-list lookup. -/
def SyncMeta.find (m : SyncMeta) (path : String) : Option FileMetadata :=
  (m.files.find? fun e => e.1 == path).map (·.2)

/-- `DriveFileInfo` from `src/sync/types.ts`, extended with the digest
of the object's current bytes (`contentHash`) so that hashing a
downloaded file can be expressed. -/
structure DriveFileInfo where
  id : String
  name : String
  modifiedTime : String
  contentHash : String
deriving DecidableEq, Repr

/-- A live local file as the engine observes it: `path`, the digest of
its bytes and `stat.mtime` rendered as an ISO string. -/
structure VaultFile where
  path : String
  hash : String
  mtime : String
deriving DecidableEq, Repr

def META_FILE_NAME_LOCAL : String := ".obsidian/gdrive-vault-meta.json"

def META_FILE_NAME_REMOTE : String := "_gdrive-vault-meta.json"

/-- `vault.getAbstractFileByPath(path)` restricted to files. -/
def vaultFind (vault : List VaultFile) (path : String) : Option VaultFile :=
  vault.find? fun f => f.path == path

/-- `buildFileMetadata` from `src/sync/meta.ts`: hash a live file,
`none` when the file does not exist. -/
def buildFileMetadata (vault : List VaultFile) (filePath : String) :
    Option FileMetadata :=
  (vaultFind vault filePath).map fun f =>
    { hash := f.hash, modifiedTime := f.mtime }

/-- `buildMetaFromVault` from `src/sync/meta.ts`: hash every live file
except the two meta files and excluded paths; both timestamps are
stamped to now. -/
def buildMetaFromVault (vault : List VaultFile) (excludePatterns : List String)
    (now : String) : SyncMeta :=
  { lastUpdatedAt := now
    lastSyncTimestamp := now
    files := (vault.filter fun f =>
        !(f.path == META_FILE_NAME_LOCAL) && !(f.path == META_FILE_NAME_REMOTE)
          && !shouldExclude f.path excludePatterns).map
      fun f => (f.path, { hash := f.hash, modifiedTime := f.mtime }) }

/-- `ConflictInfo` from `src/sync/types.ts` (`remoteDeleted` is an
optional flag, absent ≙ `false`). -/
structure ConflictInfo where
  path : String
  localModifiedTime : String
  remoteModifiedTime : String
  localHash : String
  remoteHash : String
  remoteDeleted : Bool := false
deriving DecidableEq, Repr

/-- `SyncDiff` from `src/sync/types.ts`. -/
structure SyncDiff where
  toUpload : List String
  toDownload : List String
  conflicts : List ConflictInfo
  deletedLocally : List String
  deletedRemotely : List String
deriving DecidableEq, Repr

def emptyDiff : SyncDiff :=
  { toUpload := [], toDownload := [], conflicts := []
    deletedLocally := [], deletedRemotely := [] }

/-! ## `SyncEngine.computeDiff` (`src/sync/sync-engine.ts:131-231`)

The two `for` loops of the source are embedded as two `foldl`s whose
step functions reproduce the loop bodies; `push` onto an output list is
appending at the end. -/

/-- `const localChanged = !localMetaInfo || localFileInfo.hash !== localMetaInfo.hash`. -/
def localChangedB (localFileInfo : FileMetadata)
    (localMetaInfo : Option FileMetadata) : Bool :=
  match localMetaInfo with
  | none => true
  | some li => localFileInfo.hash != li.hash

/-- `const remoteChanged = localMetaInfo && remoteFileInfo.hash !== localMetaInfo.hash`. -/
def remoteChangedB (remoteFileInfo : FileMetadata)
    (localMetaInfo : Option FileMetadata) : Bool :=
  match localMetaInfo with
  | none => false
  | some li => remoteFileInfo.hash != li.hash

/-- Body of the first `computeDiff` loop (over live local paths). -/
def diffStepLocal (localMeta remoteMeta : Option SyncMeta)
    (filesList : List DriveFileInfo) (currentLocalMeta : SyncMeta)
    (remoteFilePaths : List String) (diff : SyncDiff) (path : String) :
    SyncDiff :=
  if !(remoteFilePaths.contains path) then
    -- file exists locally but not remotely
    match remoteMeta.bind fun m => m.find path with
    | some _ => { diff with deletedRemotely := diff.deletedRemotely ++ [path] }
    | none => { diff with toUpload := diff.toUpload ++ [path] }
  else
    -- file exists both locally and remotely
    match currentLocalMeta.find path with
    | none => diff
    | some localFileInfo =>
      match remoteMeta.bind fun m => m.find path with
      | some remoteFileInfo =>
        if localChangedB localFileInfo (localMeta.bind fun m => m.find path)
            && remoteChangedB remoteFileInfo (localMeta.bind fun m => m.find path) then
          { diff with conflicts := diff.conflicts ++
              [{ path := path
                 localModifiedTime := localFileInfo.modifiedTime
                 remoteModifiedTime := remoteFileInfo.modifiedTime
                 localHash := localFileInfo.hash
                 remoteHash := remoteFileInfo.hash }] }
        else if localChangedB localFileInfo
            (localMeta.bind fun m => m.find path) then
          { diff with toUpload := diff.toUpload ++ [path] }
        else if remoteChangedB remoteFileInfo
            (localMeta.bind fun m => m.find path) then
          { diff with toDownload := diff.toDownload ++ [path] }
        else diff
      | none =>
        -- remote object exists but is not in the remote snapshot
        if (filesList.find? fun f => f.name == path).isSome then
          { diff with toDownload := diff.toDownload ++ [path] }
        else diff

/-- Body of the second `computeDiff` loop (over remote-only paths). -/
def diffStepRemote (localMeta : Option SyncMeta)
    (localFilePaths : List String) (diff : SyncDiff) (path : String) :
    SyncDiff :=
  if !(localFilePaths.contains path) then
    match localMeta.bind fun m => m.find path with
    | some _ => { diff with deletedLocally := diff.deletedLocally ++ [path] }
    | none => { diff with toDownload := diff.toDownload ++ [path] }
  else diff

/-- The live local path list of `computeDiff` (exclusion filter, then
the local meta file is dropped). -/
def localFilePathsOf (vault : List VaultFile) (excludePatterns : List String) :
    List String :=
  (vault.filter fun f =>
      !shouldExclude f.path excludePatterns
        && !(f.path == META_FILE_NAME_LOCAL)).map (·.path)

/-- The remote path list of `computeDiff` (remote meta object dropped,
then the exclusion filter). -/
def remoteFilePathsOf (filesList : List DriveFileInfo)
    (excludePatterns : List String) : List String :=
  (filesList.filter fun f =>
      !(f.name == META_FILE_NAME_REMOTE)
        && !shouldExclude f.name excludePatterns).map (·.name)

/-- `SyncEngine.computeDiff`. -/
def computeDiff (localMeta remoteMeta : Option SyncMeta)
    (filesList : List DriveFileInfo) (vault : List VaultFile)
    (excludePatterns : List String) (now : String) : SyncDiff :=
  let localFilePaths := localFilePathsOf vault excludePatterns
  let remoteFilePaths := remoteFilePathsOf filesList excludePatterns
  let currentLocalMeta := buildMetaFromVault vault excludePatterns now
  let diff1 := localFilePaths.foldl
    (diffStepLocal localMeta remoteMeta filesList currentLocalMeta remoteFilePaths)
    emptyDiff
  remoteFilePaths.foldl (diffStepRemote localMeta localFilePaths) diff1

/-! ## Timestamped filenames (`src/sync/meta.ts:242-281`) -/

/-- `String.replace('T', '_')` in JS replaces the first occurrence. -/
def replaceFirstT : List Char → List Char
  | [] => []
  | c :: rest => if c = 'T' then '_' :: rest else c :: replaceFirstT rest

/-- `YYYYMMDD_HHMMSS` from an ISO timestamp: drop `-` and `:`, turn the
`T` into `_`, keep 15 characters. -/
def conflictTimestamp (nowIso : String) : String :=
  String.mk ((replaceFirstT (nowIso.toList.filter fun c =>
    !(c == '-') && !(c == ':'))).take 15)

/-- `path.split('/').pop()`: the characters after the last `/`. -/
def lastComponent (s : List Char) : List Char :=
  (s.reverse.takeWhile fun c => !(c == '/')).reverse

/-- `generateConflictFilename` from `src/sync/meta.ts`:
`{conflictFolder}/{name}_{timestamp}{ext}`, splitting the basename at
its last dot. -/
def generateConflictFilename (originalPath conflictFolder nowIso : String) :
    String :=
  let timestamp := conflictTimestamp nowIso
  let popped := lastComponent originalPath.toList
  let fileName := if popped.isEmpty then originalPath.toList else popped
  if fileName.contains '.' then
    let name := ((fileName.reverse.dropWhile fun c => !(c == '.')).drop 1).reverse
    let ext := '.' :: (fileName.reverse.takeWhile fun c => !(c == '.')).reverse
    conflictFolder ++ "/" ++ String.mk name ++ "_" ++ timestamp ++ String.mk ext
  else
    conflictFolder ++ "/" ++ String.mk fileName ++ "_" ++ timestamp

/-- `generateUntrackedFilename` from `src/sync/meta.ts`: the whole path
with `_{timestamp}` inserted before the last-dot extension. -/
def generateUntrackedFilename (originalPath nowIso : String) : String :=
  let timestamp := conflictTimestamp nowIso
  let s := originalPath.toList
  if s.contains '.' then
    let name := ((s.reverse.dropWhile fun c => !(c == '.')).drop 1).reverse
    let ext := '.' :: (s.reverse.takeWhile fun c => !(c == '.')).reverse
    String.mk name ++ "_" ++ timestamp ++ String.mk ext
  else
    originalPath ++ "_" ++ timestamp

/-! ## Operation traces

The engine's effects — network transfers, local file writes and
deletes, conflict-folder backups, snapshot commits — are recorded as an
explicit operation trace. -/

/-- Lexicographic comparison of two character lists, the order JS `<`
and `>` induce on strings (code-unit comparison; for the engine's
ISO-8601 timestamps this equals chronological order). -/
def ltbChars : List Char → List Char → Bool
  | _, [] => false
  | [], _ :: _ => true
  | a :: as, b :: bs => if a = b then ltbChars as bs else decide (a < b)

/-- `a < b` on strings as JS compares them. -/
def jsLtb (a b : String) : Bool := ltbChars a.toList b.toList

/-- The user's per-path conflict choice (`'local' | 'remote'`). -/
inductive Resolution where
  | keepLocal
  | keepRemote
deriving DecidableEq, Repr

/-- `resolutions[path]`. -/
def resolutionFor (resolutions : List (String × Resolution)) (path : String) :
    Option Resolution :=
  (resolutions.find? fun e => e.1 == path).map (·.2)

/-- One effectful operation of the engine:
`uploadNew` = `uploadFile` (create a remote object), `modifyRemote` =
`modifyFile` (overwrite a remote object), `download` = `getFile` +
local write at the original path, `deleteLocal` = `vault.trash`,
`deleteRemote` = `deleteFile`, `renameRemote` = `renameFile`,
`saveLocalToConflict` / `saveRemoteToConflict` = a backup write into
the conflict folder, `logBackupFailure` = the `console.error` on a
failed pre-deletion backup, `pruneEmptyDirs` =
`deleteEmptyParentDirectories`, and the two snapshot commits. -/
inductive Op where
  | uploadNew (path : String)
  | modifyRemote (path : String)
  | download (path : String)
  | deleteLocal (path : String)
  | deleteRemote (id : String)
  | renameRemote (id newName : String)
  | saveLocalToConflict (path conflictPath : String)
  | saveRemoteToConflict (path conflictPath : String)
  | logBackupFailure (path : String)
  | pruneEmptyDirs (paths : List String)
  | writeLocalMeta (meta : SyncMeta)
  | writeRemoteMeta (meta : SyncMeta)
deriving DecidableEq, Repr

/-- A network or local-file transfer (upload, download, delete): the
operations the spec's "at least one transfer occurred" counts. -/
def Op.isTransfer : Op → Bool
  | .uploadNew _ => true
  | .modifyRemote _ => true
  | .download _ => true
  | .deleteLocal _ => true
  | .deleteRemote _ => true
  | _ => false

/-- A snapshot commit (`writeLocalMeta` / `writeRemoteMeta`). -/
def Op.isMetaWrite : Op → Bool
  | .writeLocalMeta _ => true
  | .writeRemoteMeta _ => true
  | _ => false

/-- A backup write into the conflict folder. -/
def Op.isConflictSave : Op → Bool
  | .saveLocalToConflict _ _ => true
  | .saveRemoteToConflict _ _ => true
  | _ => false

/-! ## Incremental push (`SyncEngine.performPush`,
`src/sync/sync-engine.ts:363-458`) -/

/-- Body of the `performPush` work-list loop (lines 377-391): a
tracked path is pushed when no remote object exists, or when its hash
differs from the remote snapshot record (or that record is absent)
and the user did not resolve the path to `remote`. -/
def pushUploadStep (remoteMeta : Option SyncMeta)
    (filesList : List DriveFileInfo)
    (resolutions : List (String × Resolution)) (toUpload : List String)
    (e : String × FileMetadata) : List String :=
  match filesList.find? fun f => f.name == e.1 with
  | none => toUpload ++ [e.1]
  | some _ =>
    if (match remoteMeta.bind fun m => m.find e.1 with
        | none => true
        | some remoteInfo => e.2.hash != remoteInfo.hash) then
      if resolutionFor resolutions e.1 ≠ some .keepRemote then
        toUpload ++ [e.1]
      else toUpload
    else toUpload

/-- The `toUpload` work list of `performPush`. -/
def performPushToUpload (localMeta : SyncMeta) (remoteMeta : Option SyncMeta)
    (filesList : List DriveFileInfo)
    (resolutions : List (String × Resolution)) : List String :=
  localMeta.files.foldl (pushUploadStep remoteMeta filesList resolutions) []

/-- `performPush` as its operation trace: upload every work-list path
that still exists locally (`modifyFile` when a remote object exists,
`uploadFile` otherwise), then — only if the work list is nonempty —
stamp both timestamps to now and write both snapshots. -/
def performPush (localMeta : SyncMeta) (remoteMeta : Option SyncMeta)
    (filesList : List DriveFileInfo)
    (resolutions : List (String × Resolution))
    (vault : List VaultFile) (now : String) : List Op :=
  (performPushToUpload localMeta remoteMeta filesList resolutions).flatMap
    (fun path =>
      match vaultFind vault path with
      | some _ =>
        match filesList.find? fun f => f.name == path with
        | some _ => [Op.modifyRemote path]
        | none => [Op.uploadNew path]
      | none => []) ++
  (if (performPushToUpload localMeta remoteMeta filesList
      resolutions).length > 0 then
    [Op.writeLocalMeta { localMeta with
        lastSyncTimestamp := now, lastUpdatedAt := now },
     Op.writeRemoteMeta { localMeta with
        lastSyncTimestamp := now, lastUpdatedAt := now }]
  else [])

/-! ## Full push (`SyncEngine.pushAll`,
`src/sync/sync-engine.ts:877-992`) -/

/-- Per-file ops of the Full Push upload loop (lines 908-944): with a
remote object and a remote snapshot record, skip on equal hash, else
rename the remote object to an untracked timestamped name and upload
fresh; otherwise upload directly. -/
def pushAllFileOps (remoteMeta : Option SyncMeta)
    (filesList : List DriveFileInfo) (now : String) (f : VaultFile) :
    List Op :=
  match filesList.find? fun d => d.name == f.path with
  | some driveFile =>
    match remoteMeta.bind fun m => m.find f.path with
    | some remoteInfo =>
      if f.hash == remoteInfo.hash then []
      else [Op.renameRemote driveFile.id
              (generateUntrackedFilename f.path now),
            Op.uploadNew f.path]
    | none => [Op.uploadNew f.path]
  | none => [Op.uploadNew f.path]

/-- `pushAll` (Full Push) as its operation trace (confirmation dialog
answered positively); both snapshots are always written with both
timestamps stamped to now. -/
def pushAll (remoteMeta : Option SyncMeta) (filesList : List DriveFileInfo)
    (vault : List VaultFile) (excludePatterns : List String)
    (now : String) : List Op :=
  (vault.filter fun f =>
      !shouldExclude f.path excludePatterns
        && !(f.path == META_FILE_NAME_LOCAL)
        && !(f.path == META_FILE_NAME_REMOTE)).flatMap
    (pushAllFileOps remoteMeta filesList now) ++
  [Op.writeLocalMeta { buildMetaFromVault vault excludePatterns now with
      lastSyncTimestamp := now, lastUpdatedAt := now },
   Op.writeRemoteMeta { buildMetaFromVault vault excludePatterns now with
      lastSyncTimestamp := now, lastUpdatedAt := now }]

/-! ## Full pull (`SyncEngine.pullAll`,
`src/sync/sync-engine.ts:997-1096`) -/

/-- Per-file ops of the Full Pull download loop (lines 1036-1069): with
a local file and a remote snapshot record, skip on equal hash, else
save the local file into the conflict folder and then download;
otherwise download directly. -/
def pullAllFileOps (remoteMeta : SyncMeta) (vault : List VaultFile)
    (conflictFolder now : String) (driveFile : DriveFileInfo) : List Op :=
  match vaultFind vault driveFile.name with
  | some localFile =>
    match remoteMeta.find driveFile.name with
    | some remoteInfo =>
      if localFile.hash == remoteInfo.hash then []
      else [Op.saveLocalToConflict driveFile.name
              (generateConflictFilename driveFile.name conflictFolder now),
            Op.download driveFile.name]
    | none => [Op.download driveFile.name]
  | none => [Op.download driveFile.name]

/-- `pullAll` (Full Pull) as its operation trace (confirmation dialog
answered positively, remote snapshot present). -/
def pullAll (remoteMeta : SyncMeta) (filesList : List DriveFileInfo)
    (vault : List VaultFile) (excludePatterns : List String)
    (conflictFolder now : String) : List Op :=
  (filesList.filter fun f =>
      !(f.name == META_FILE_NAME_REMOTE)
        && !shouldExclude f.name excludePatterns).flatMap
    (pullAllFileOps remoteMeta vault conflictFolder now) ++
  [Op.writeLocalMeta { remoteMeta with lastSyncTimestamp := now }]

/-! ## Incremental pull (`SyncEngine.performPull`,
`src/sync/sync-engine.ts:619-872`)

The download-planning loop (lines 639-711) both collects `toDownload`
and performs the conflict-folder saves dictated by the resolutions; the
deletion-planning loop (lines 716-749) collects `toDelete`,
`modifiedDeletes` and `keptLocalFiles`.  Each loop iteration depends
only on its own snapshot entry, so the loops are embedded as per-entry
cells concatenated with `flatMap`. -/

/-- `ModifiedDeleteInfo` (a locally modified file slated for deletion
whose content must be backed up first). -/
structure ModifiedDeleteInfo where
  path : String
  modifiedTime : String
deriving DecidableEq, Repr

/-- Save the remote version of `path` into the conflict folder (the
`resolution === 'local'` branch: remote content is fetched only when a
remote object exists). -/
def pullSaveRemoteOp (filesList : List DriveFileInfo)
    (conflictFolder now : String) (path : String) : List Op :=
  match filesList.find? fun f => f.name == path with
  | some _ => [Op.saveRemoteToConflict path
      (generateConflictFilename path conflictFolder now)]
  | none => []

/-- Save the local version of `path` into the conflict folder (the
keep-remote branch: local content is read only when the file exists). -/
def pullSaveLocalOp (vault : List VaultFile)
    (conflictFolder now : String) (path : String) : List Op :=
  match vaultFind vault path with
  | some _ => [Op.saveLocalToConflict path
      (generateConflictFilename path conflictFolder now)]
  | none => []

/-- The `toDownload` contribution of one remote snapshot entry
(lines 639-711). -/
def pullDownloadCell (localMeta : Option SyncMeta)
    (actualLocalMeta : SyncMeta)
    (resolutions : List (String × Resolution))
    (excludePatterns : List String) (e : String × FileMetadata) :
    List String :=
  if shouldExclude e.1 excludePatterns then []
  else
    match actualLocalMeta.find e.1 with
    | none =>
      match localMeta.bind fun m => m.find e.1 with
      | none => [e.1]
      | some localMetaInfo =>
        if localMetaInfo.hash != e.2.hash then [e.1] else []
    | some actualLocalInfo =>
      match localMeta.bind fun m => m.find e.1 with
      | none =>
        if actualLocalInfo.hash != e.2.hash then
          if resolutionFor resolutions e.1 = some .keepLocal then []
          else [e.1]
        else []
      | some localMetaInfo =>
        if localMetaInfo.hash != e.2.hash then
          if localMetaInfo.hash == actualLocalInfo.hash then [e.1]
          else if resolutionFor resolutions e.1 = some .keepLocal then []
          else [e.1]
        else []

/-- The conflict-folder saves performed while planning one remote
snapshot entry (lines 659-707). -/
def pullPlanOpsCell (localMeta : Option SyncMeta)
    (actualLocalMeta : SyncMeta)
    (resolutions : List (String × Resolution))
    (filesList : List DriveFileInfo) (vault : List VaultFile)
    (excludePatterns : List String) (conflictFolder now : String)
    (e : String × FileMetadata) : List Op :=
  if shouldExclude e.1 excludePatterns then []
  else
    match actualLocalMeta.find e.1 with
    | none => []
    | some actualLocalInfo =>
      match localMeta.bind fun m => m.find e.1 with
      | none =>
        if actualLocalInfo.hash != e.2.hash then
          if resolutionFor resolutions e.1 = some .keepLocal then
            pullSaveRemoteOp filesList conflictFolder now e.1
          else pullSaveLocalOp vault conflictFolder now e.1
        else []
      | some localMetaInfo =>
        if localMetaInfo.hash != e.2.hash then
          if localMetaInfo.hash == actualLocalInfo.hash then []
          else if resolutionFor resolutions e.1 = some .keepLocal then
            pullSaveRemoteOp filesList conflictFolder now e.1
          else pullSaveLocalOp vault conflictFolder now e.1
        else []

/-- `isModified` of the deletion-planning loop: the live hash differs
from the last-synced local snapshot hash. -/
def pullIsModified (localMeta actualLocalMeta : SyncMeta) (path : String) :
    Bool :=
  match actualLocalMeta.find path, localMeta.find path with
  | some actualInfo, some localMetaInfo =>
      actualInfo.hash != localMetaInfo.hash
  | _, _ => false

/-- Guard of the deletion-planning loop (lines 718-720): tracked
locally, gone from the remote snapshot, not excluded, still a live
file. -/
def pullDeleteGuard (remoteMeta : SyncMeta) (vault : List VaultFile)
    (excludePatterns : List String) (path : String) : Bool :=
  !(remoteMeta.find path).isSome
    && !shouldExclude path excludePatterns
    && (vaultFind vault path).isSome

/-- The `toDelete` contribution of one local snapshot entry
(lines 717-748): every guarded path except those kept by a `local`
resolution of a modified file. -/
def pullToDeleteCell (remoteMeta localMeta actualLocalMeta : SyncMeta)
    (vault : List VaultFile) (excludePatterns : List String)
    (resolutions : List (String × Resolution))
    (e : String × FileMetadata) : List String :=
  if pullDeleteGuard remoteMeta vault excludePatterns e.1 then
    if pullIsModified localMeta actualLocalMeta e.1
        && (resolutionFor resolutions e.1 = some .keepLocal) then []
    else [e.1]
  else []

/-- The `keptLocalFiles` contribution of one local snapshot entry:
modified files the user resolved to `local`. -/
def pullKeptCell (remoteMeta localMeta actualLocalMeta : SyncMeta)
    (vault : List VaultFile) (excludePatterns : List String)
    (resolutions : List (String × Resolution))
    (e : String × FileMetadata) : List String :=
  if pullDeleteGuard remoteMeta vault excludePatterns e.1 then
    if pullIsModified localMeta actualLocalMeta e.1
        && (resolutionFor resolutions e.1 = some .keepLocal) then [e.1]
    else []
  else []

/-- The `modifiedDeletes` contribution of one local snapshot entry:
modified files with no `local` and no `remote` resolution. -/
def pullModifiedDeletesCell (remoteMeta localMeta actualLocalMeta : SyncMeta)
    (vault : List VaultFile) (excludePatterns : List String)
    (resolutions : List (String × Resolution))
    (e : String × FileMetadata) : List ModifiedDeleteInfo :=
  if pullDeleteGuard remoteMeta vault excludePatterns e.1 then
    if pullIsModified localMeta actualLocalMeta e.1
        && !(resolutionFor resolutions e.1 = some .keepLocal)
        && !(resolutionFor resolutions e.1 = some .keepRemote) then
      [{ path := e.1
         modifiedTime :=
           match actualLocalMeta.find e.1 with
           | some actualInfo => actualInfo.modifiedTime
           | none =>
             match vaultFind vault e.1 with
             | some f => f.mtime
             | none => "" }]
    else []
  else []

/-- Create-or-overwrite of a live file (`createFileWithPath`): a
download replaces the file's content, so its hash becomes the remote
bytes' digest and its mtime the write time. -/
def vaultUpsert (vault : List VaultFile) (path hash mtime : String) :
    List VaultFile :=
  if (vault.find? fun f => f.path == path).isSome then
    vault.map fun f =>
      if f.path == path then { f with hash := hash, mtime := mtime } else f
  else vault ++ [{ path := path, hash := hash, mtime := mtime }]

/-- The live vault after the download batch: each downloaded path holds
the remote object's bytes. -/
def applyDownloads (vault : List VaultFile)
    (filesList : List DriveFileInfo) (now : String)
    (paths : List String) : List VaultFile :=
  paths.foldl (fun v p =>
    match filesList.find? fun f => f.name == p with
    | some df => vaultUpsert v p df.contentHash now
    | none => v) vault

/-- `newLocalMeta.files[path] = metadata` (assignment into the JS
object). -/
def assocUpsert (files : List (String × FileMetadata)) (path : String)
    (md : FileMetadata) : List (String × FileMetadata) :=
  if (files.find? fun e => e.1 == path).isSome then
    files.map fun e => if e.1 == path then (e.1, md) else e
  else files ++ [(path, md)]

/-- The backup written (or the failure logged) for one
`modifiedDeletes` entry before the deletion phase (lines 790-806);
`backupFails` models `createFileWithPath` throwing on the backup
write. -/
def pullBackupOps (vaultAfter : List VaultFile)
    (conflictFolder now : String) (backupFails : String → Bool)
    (info : ModifiedDeleteInfo) : List Op :=
  match vaultFind vaultAfter info.path with
  | some _ =>
    if backupFails info.path then [Op.logBackupFailure info.path]
    else [Op.saveLocalToConflict info.path
        (generateConflictFilename info.path conflictFolder now)]
  | none => []

/-- The paths whose pre-deletion backup succeeded
(`successfulBackups`). -/
def pullSuccessfulBackups (vaultAfter : List VaultFile)
    (backupFails : String → Bool)
    (modifiedDeletes : List ModifiedDeleteInfo) : List String :=
  (modifiedDeletes.filter fun info =>
    (vaultFind vaultAfter info.path).isSome && !backupFails info.path).map
    (·.path)

/-- The deletion of one `toDelete` path (lines 810-826): skipped when a
required backup failed, and a no-op when the file is already gone. -/
def pullDeleteOps (vaultAfter : List VaultFile)
    (modifiedDeletes : List ModifiedDeleteInfo)
    (successfulBackups : List String) (path : String) : List Op :=
  if (modifiedDeletes.any fun d => d.path == path)
      && !(successfulBackups.contains path) then []
  else
    match vaultFind vaultAfter path with
    | some _ => [Op.deleteLocal path]
    | none => []

/-- The `toDownload` list of `performPull`. -/
def pullToDownload (remoteMeta : SyncMeta) (localMeta : Option SyncMeta)
    (actualLocalMeta : SyncMeta)
    (resolutions : List (String × Resolution))
    (excludePatterns : List String) : List String :=
  remoteMeta.files.flatMap
    (pullDownloadCell localMeta actualLocalMeta resolutions excludePatterns)

/-- The `toDelete` list of `performPull`. -/
def pullToDelete (remoteMeta : SyncMeta) (localMeta : Option SyncMeta)
    (actualLocalMeta : SyncMeta) (vault : List VaultFile)
    (excludePatterns : List String)
    (resolutions : List (String × Resolution)) : List String :=
  match localMeta with
  | some lm => lm.files.flatMap
      (pullToDeleteCell remoteMeta lm actualLocalMeta vault
        excludePatterns resolutions)
  | none => []

/-- The `modifiedDeletes` list of `performPull`. -/
def pullModifiedDeletes (remoteMeta : SyncMeta)
    (localMeta : Option SyncMeta) (actualLocalMeta : SyncMeta)
    (vault : List VaultFile) (excludePatterns : List String)
    (resolutions : List (String × Resolution)) :
    List ModifiedDeleteInfo :=
  match localMeta with
  | some lm => lm.files.flatMap
      (pullModifiedDeletesCell remoteMeta lm actualLocalMeta vault
        excludePatterns resolutions)
  | none => []

/-- The `keptLocalFiles` list of `performPull`. -/
def pullKeptLocalFiles (remoteMeta : SyncMeta)
    (localMeta : Option SyncMeta) (actualLocalMeta : SyncMeta)
    (vault : List VaultFile) (excludePatterns : List String)
    (resolutions : List (String × Resolution)) : List String :=
  match localMeta with
  | some lm => lm.files.flatMap
      (pullKeptCell remoteMeta lm actualLocalMeta vault
        excludePatterns resolutions)
  | none => []

/-- The live vault once `performPull`'s downloads have been applied. -/
def pullVaultAfter (remoteMeta : SyncMeta) (filesList : List DriveFileInfo)
    (localMeta : Option SyncMeta) (actualLocalMeta : SyncMeta)
    (resolutions : List (String × Resolution))
    (excludePatterns : List String) (vault : List VaultFile)
    (now : String) : List VaultFile :=
  applyDownloads vault filesList now
    (pullToDownload remoteMeta localMeta actualLocalMeta resolutions
      excludePatterns)

/-- The deletion ops of `performPull` (after backup gating). -/
def pullDeletePhase (remoteMeta : SyncMeta)
    (filesList : List DriveFileInfo) (localMeta : Option SyncMeta)
    (actualLocalMeta : SyncMeta)
    (resolutions : List (String × Resolution))
    (excludePatterns : List String) (vault : List VaultFile)
    (now : String) (backupFails : String → Bool) : List Op :=
  (pullToDelete remoteMeta localMeta actualLocalMeta vault
      excludePatterns resolutions).flatMap
    (pullDeleteOps
      (pullVaultAfter remoteMeta filesList localMeta actualLocalMeta
        resolutions excludePatterns vault now)
      (pullModifiedDeletes remoteMeta localMeta actualLocalMeta vault
        excludePatterns resolutions)
      (pullSuccessfulBackups
        (pullVaultAfter remoteMeta filesList localMeta actualLocalMeta
          resolutions excludePatterns vault now)
        backupFails
        (pullModifiedDeletes remoteMeta localMeta actualLocalMeta vault
          excludePatterns resolutions)))

/-- The local snapshot `performPull` writes: the remote snapshot with a
fresh `lastSyncTimestamp` and downloaded / kept files re-hashed from
the post-download vault. -/
def pullNewLocalMeta (remoteMeta : SyncMeta)
    (filesList : List DriveFileInfo) (localMeta : Option SyncMeta)
    (actualLocalMeta : SyncMeta)
    (resolutions : List (String × Resolution))
    (excludePatterns : List String) (vault : List VaultFile)
    (now : String) : SyncMeta :=
  { lastUpdatedAt := remoteMeta.lastUpdatedAt
    lastSyncTimestamp := now
    files := ((pullToDownload remoteMeta localMeta actualLocalMeta
          resolutions excludePatterns) ++
        (pullKeptLocalFiles remoteMeta localMeta actualLocalMeta vault
          excludePatterns resolutions)).foldl
      (fun files p =>
        match buildFileMetadata
            (pullVaultAfter remoteMeta filesList localMeta
              actualLocalMeta resolutions excludePatterns vault now) p with
        | some md => assocUpsert files p md
        | none => files) remoteMeta.files }

/-- `performPull` as its operation trace: plan downloads (performing
the resolution-dictated conflict saves), download, back up modified
files slated for deletion, delete (skipping any path whose backup
failed), prune empty directories, and finally write the local snapshot
copied from the remote one with downloaded and kept files re-hashed. -/
def performPull (remoteMeta : SyncMeta) (filesList : List DriveFileInfo)
    (resolutions : List (String × Resolution))
    (actualLocalMeta : SyncMeta) (localMeta : Option SyncMeta)
    (excludePatterns : List String) (conflictFolder : String)
    (vault : List VaultFile) (now : String)
    (backupFails : String → Bool) : List Op :=
  remoteMeta.files.flatMap
    (pullPlanOpsCell localMeta actualLocalMeta resolutions filesList
      vault excludePatterns conflictFolder now) ++
  (pullToDownload remoteMeta localMeta actualLocalMeta resolutions
      excludePatterns).flatMap (fun p =>
    match filesList.find? fun f => f.name == p with
    | some _ => [Op.download p]
    | none => []) ++
  (pullModifiedDeletes remoteMeta localMeta actualLocalMeta vault
      excludePatterns resolutions).flatMap
    (pullBackupOps
      (pullVaultAfter remoteMeta filesList localMeta actualLocalMeta
        resolutions excludePatterns vault now)
      conflictFolder now backupFails) ++
  pullDeletePhase remoteMeta filesList localMeta actualLocalMeta
    resolutions excludePatterns vault now backupFails ++
  (if ((pullDeletePhase remoteMeta filesList localMeta actualLocalMeta
      resolutions excludePatterns vault now backupFails).filterMap
      fun op => match op with
        | Op.deleteLocal p => some p
        | _ => none).isEmpty then []
   else
    [Op.pruneEmptyDirs
      ((pullDeletePhase remoteMeta filesList localMeta actualLocalMeta
          resolutions excludePatterns vault now backupFails).filterMap
        fun op => match op with
          | Op.deleteLocal p => some p
          | _ => none)]) ++
  [Op.writeLocalMeta
    (pullNewLocalMeta remoteMeta filesList localMeta actualLocalMeta
      resolutions excludePatterns vault now)]

/-! ## The push and pull façades (`pushChanges`,
`src/sync/sync-engine.ts:236-319`; `pullChanges`, lines 463-617) -/

/-- Outcome of `pushChanges`: the precondition gate's four rows, plus
the conflict dialog of a conflicted diff. -/
inductive PushOutcome where
  | fullPush (trace : List Op)
  | pullRequiredError
  | blockedRemoteNewer
  | conflictDialog (conflicts : List ConflictInfo)
  | pushed (trace : List Op)
deriving DecidableEq, Repr

/-- `pushChanges`: no remote snapshot ⇒ Full Push; no local snapshot ⇒
pull-required notice and stop; remote snapshot strictly newer ⇒ block
behind the pull-required dialog; otherwise compute the diff and either
open the conflict dialog or run `performPush`.  JS string comparison of
ISO timestamps is lexicographic, embedded as `String.lt`. -/
def pushChanges (localMeta remoteMeta : Option SyncMeta)
    (filesList : List DriveFileInfo) (vault : List VaultFile)
    (excludePatterns : List String) (now : String) : PushOutcome :=
  match remoteMeta with
  | none => .fullPush (pushAll none filesList vault excludePatterns now)
  | some rm =>
    match localMeta with
    | none => .pullRequiredError
    | some lm =>
      if jsLtb lm.lastUpdatedAt rm.lastUpdatedAt then .blockedRemoteNewer
      else
        if (computeDiff (some lm) (some rm) filesList vault excludePatterns
            now).conflicts.isEmpty then
          .pushed (performPush (buildMetaFromVault vault excludePatterns now)
            (some rm) filesList [] vault now)
        else .conflictDialog (computeDiff (some lm) (some rm) filesList
          vault excludePatterns now).conflicts

/-- Outcome of `pullChanges`. -/
inductive PullOutcome where
  | noRemoteData
  | conflictDialog (conflicts : List ConflictInfo)
  | alreadyUpToDate
  | pulled (trace : List Op)
deriving DecidableEq, Repr

/-- The `remoteDeleted` conflicts of `pullChanges` (lines 542-566):
paths tracked in the local snapshot, gone from the remote snapshot,
whose live local hash differs from the last-synced one. -/
def remoteDeletedConflictsOf (lm : SyncMeta) (rm : SyncMeta)
    (currentLocalMeta : SyncMeta) (excludePatterns : List String) :
    List ConflictInfo :=
  lm.files.flatMap fun e =>
    if shouldExclude e.1 excludePatterns then []
    else if (rm.find e.1).isSome then []
    else
      match currentLocalMeta.find e.1 with
      | some actualLocalInfo =>
        if actualLocalInfo.hash != e.2.hash then
          [{ path := e.1
             localModifiedTime := actualLocalInfo.modifiedTime
             remoteModifiedTime := lm.lastUpdatedAt
             localHash := actualLocalInfo.hash
             remoteHash := ""
             remoteDeleted := true }]
        else []
      | none => []

/-- The conflicts detected when no local snapshot exists
(lines 483-533): a live file whose hash differs from the remote record
and whose modification time is newer than the remote's. -/
def noLocalMetaConflictsOf (rm : SyncMeta) (currentLocalMeta : SyncMeta) :
    List ConflictInfo :=
  rm.files.flatMap fun e =>
    match currentLocalMeta.find e.1 with
    | some localInfo =>
      if localInfo.hash != e.2.hash then
        if jsLtb e.2.modifiedTime localInfo.modifiedTime then
          [{ path := e.1
             localModifiedTime := localInfo.modifiedTime
             remoteModifiedTime := e.2.modifiedTime
             localHash := localInfo.hash
             remoteHash := e.2.hash }]
        else []
      else []
    | none => []

/-- `pullChanges`: no remote snapshot ⇒ nothing to pull; no local
snapshot ⇒ conflicts only for live files newer than the remote record
(wall-clock comparison of ISO times, embedded as `String.lt`),
otherwise pull; both snapshots ⇒ `remoteDeleted` conflicts plus the
diff's conflicts gate the conflict dialog, an up-to-date check may stop
early, otherwise `performPull` runs with no resolutions. -/
def pullChanges (localMeta remoteMeta : Option SyncMeta)
    (filesList : List DriveFileInfo) (vault : List VaultFile)
    (excludePatterns : List String) (conflictFolder now : String)
    (backupFails : String → Bool) : PullOutcome :=
  match remoteMeta with
  | none => .noRemoteData
  | some rm =>
    match localMeta with
    | none =>
      if (noLocalMetaConflictsOf rm
          (buildMetaFromVault vault excludePatterns now)).isEmpty then
        .pulled (performPull rm filesList []
          (buildMetaFromVault vault excludePatterns now) none
          excludePatterns conflictFolder vault now backupFails)
      else .conflictDialog (noLocalMetaConflictsOf rm
        (buildMetaFromVault vault excludePatterns now))
    | some lm =>
      if ((remoteDeletedConflictsOf lm rm
            (buildMetaFromVault vault excludePatterns now) excludePatterns) ++
          (computeDiff (some lm) (some rm) filesList vault excludePatterns
            now).conflicts).isEmpty then
        if !(jsLtb lm.lastUpdatedAt rm.lastUpdatedAt)
            && (computeDiff (some lm) (some rm) filesList vault
              excludePatterns now).toDownload.isEmpty then
          .alreadyUpToDate
        else
          .pulled (performPull rm filesList []
            (buildMetaFromVault vault excludePatterns now) (some lm)
            excludePatterns conflictFolder vault now backupFails)
      else .conflictDialog
        ((remoteDeletedConflictsOf lm rm
            (buildMetaFromVault vault excludePatterns now) excludePatterns) ++
          (computeDiff (some lm) (some rm) filesList vault excludePatterns
            now).conflicts)

/-- The contribution of one first-loop iteration to `conflicts`. -/
def localConflictCell (localMeta remoteMeta : Option SyncMeta)
    (currentLocalMeta : SyncMeta) (remoteFilePaths : List String)
    (path : String) : List ConflictInfo :=
  if !(remoteFilePaths.contains path) then []
  else
    match currentLocalMeta.find path with
    | none => []
    | some localFileInfo =>
      match remoteMeta.bind fun m => m.find path with
      | some remoteFileInfo =>
        if localChangedB localFileInfo (localMeta.bind fun m => m.find path)
            && remoteChangedB remoteFileInfo (localMeta.bind fun m => m.find path) then
          [{ path := path
             localModifiedTime := localFileInfo.modifiedTime
             remoteModifiedTime := remoteFileInfo.modifiedTime
             localHash := localFileInfo.hash
             remoteHash := remoteFileInfo.hash }]
        else []
      | none => []

/-- The contribution of one first-loop iteration to `toUpload`. -/
def localUploadCell (localMeta remoteMeta : Option SyncMeta)
    (currentLocalMeta : SyncMeta) (remoteFilePaths : List String)
    (path : String) : List String :=
  if !(remoteFilePaths.contains path) then
    match remoteMeta.bind fun m => m.find path with
    | some _ => []
    | none => [path]
  else
    match currentLocalMeta.find path with
    | none => []
    | some localFileInfo =>
      match remoteMeta.bind fun m => m.find path with
      | some remoteFileInfo =>
        if localChangedB localFileInfo (localMeta.bind fun m => m.find path)
            && remoteChangedB remoteFileInfo (localMeta.bind fun m => m.find path) then []
        else if localChangedB localFileInfo
            (localMeta.bind fun m => m.find path) then [path]
        else []
      | none => []

/-- The contribution of one first-loop iteration to `toDownload`. -/
def localDownloadCell (localMeta remoteMeta : Option SyncMeta)
    (filesList : List DriveFileInfo) (currentLocalMeta : SyncMeta)
    (remoteFilePaths : List String) (path : String) : List String :=
  if !(remoteFilePaths.contains path) then []
  else
    match currentLocalMeta.find path with
    | none => []
    | some localFileInfo =>
      match remoteMeta.bind fun m => m.find path with
      | some remoteFileInfo =>
        if localChangedB localFileInfo (localMeta.bind fun m => m.find path)
            && remoteChangedB remoteFileInfo (localMeta.bind fun m => m.find path) then []
        else if localChangedB localFileInfo
            (localMeta.bind fun m => m.find path) then []
        else if remoteChangedB remoteFileInfo
            (localMeta.bind fun m => m.find path) then [path]
        else []
      | none =>
        if (filesList.find? fun f => f.name == path).isSome then [path]
        else []

/-- The contribution of one first-loop iteration to `deletedRemotely`. -/
def localDeletedRemotelyCell (remoteMeta : Option SyncMeta)
    (remoteFilePaths : List String) (path : String) : List String :=
  if !(remoteFilePaths.contains path) then
    match remoteMeta.bind fun m => m.find path with
    | some _ => [path]
    | none => []
  else []

/-- The contribution of one second-loop iteration to `toDownload`. -/
def remoteDownloadCell (localMeta : Option SyncMeta)
    (localFilePaths : List String) (path : String) : List String :=
  if !(localFilePaths.contains path) then
    match localMeta.bind fun m => m.find path with
    | some _ => []
    | none => [path]
  else []

/-- The contribution of one second-loop iteration to `deletedLocally`. -/
def remoteDeletedLocallyCell (localMeta : Option SyncMeta)
    (localFilePaths : List String) (path : String) : List String :=
  if !(localFilePaths.contains path) then
    match localMeta.bind fun m => m.find path with
    | some _ => [path]
    | none => []
  else []

/-- An operation is about `q` when `q` is the vault path it reads,
writes or deletes. -/
def Op.touchesPath : Op → String → Bool
  | .uploadNew p, q => p == q
  | .modifyRemote p, q => p == q
  | .download p, q => p == q
  | .deleteLocal p, q => p == q
  | .saveLocalToConflict p _, q => p == q
  | .saveRemoteToConflict p _, q => p == q
  | .logBackupFailure p, q => p == q
  | _, _ => false

/-- The contribution of one work-list-loop iteration. -/
def pushUploadCell (remoteMeta : Option SyncMeta)
    (filesList : List DriveFileInfo)
    (resolutions : List (String × Resolution))
    (e : String × FileMetadata) : List String :=
  match filesList.find? fun f => f.name == e.1 with
  | none => [e.1]
  | some _ =>
    if (match remoteMeta.bind fun m => m.find e.1 with
        | none => true
        | some remoteInfo => e.2.hash != remoteInfo.hash) then
      if resolutionFor resolutions e.1 ≠ some .keepRemote then [e.1]
      else []
    else []

end GDrive

def c1vault : List GDrive.VaultFile :=
  [{ path := "note.md", hash := "h1", mtime := "t1" }]

def c1lm : GDrive.SyncMeta :=
  { lastUpdatedAt := "t", lastSyncTimestamp := "t"
    files := [("note.md", { hash := "h0", modifiedTime := "t0" })] }

def c1rm : GDrive.SyncMeta :=
  { lastUpdatedAt := "t", lastSyncTimestamp := "t"
    files := [("note.md", { hash := "h2", modifiedTime := "t2" })] }

def c1files : List GDrive.DriveFileInfo :=
  [{ id := "id1", name := "note.md", modifiedTime := "t2", contentHash := "h2" }]

def c5vault : List GDrive.VaultFile :=
  [{ path := "a.md", hash := "h", mtime := "t" }]

def c5rm : GDrive.SyncMeta :=
  { lastUpdatedAt := "t", lastSyncTimestamp := "t"
    files := [("a.md", { hash := "h", modifiedTime := "t0" })] }

def c5files : List GDrive.DriveFileInfo :=
  [{ id := "id1", name := "a.md", modifiedTime := "t2", contentHash := "h" }]

def c6vault : List GDrive.VaultFile :=
  [{ path := "a.md", hash := "h1", mtime := "t" }]

def c6rm : GDrive.SyncMeta :=
  { lastUpdatedAt := "t", lastSyncTimestamp := "t", files := [] }

def c6files : List GDrive.DriveFileInfo :=
  [{ id := "id1", name := "a.md", modifiedTime := "t2", contentHash := "h2" }]

namespace GDrive

/-! ### Monotonicity of glob matching under path extension -/

/-- A prefix match of `s` is also a prefix match of `s ++ t`: the
compiled regex is never end-anchored. -/
theorem gmatch_append (ts : List GItem) :
    ∀ s t : List Char, gmatch ts s = true → gmatch ts (s ++ t) = true := by
  induction ts with
  | nil => intro s t _; simp [gmatch]
  | cons hd tl ih =>
    intro s t h
    cases hd with
    | lit c =>
      cases s with
      | nil => simp [gmatch] at h
      | cons c' s' =>
        simp only [gmatch, Bool.and_eq_true] at h ⊢
        exact ⟨h.1, ih s' t h.2⟩
    | qmark =>
      cases s with
      | nil => simp [gmatch] at h
      | cons c' s' =>
        simp only [gmatch, Bool.and_eq_true] at h ⊢
        exact ⟨h.1, ih s' t h.2⟩
    | star =>
      simp only [gmatch, List.any_eq_true, List.mem_range,
        Bool.and_eq_true] at h ⊢
      obtain ⟨k, hk, hall, hm⟩ := h
      have hkle : k ≤ s.length := Nat.lt_succ_iff.mp hk
      refine ⟨k, ?_, ?_, ?_⟩
      · simp only [List.length_append]
        omega
      · rw [List.take_append_of_le_length hkle]; exact hall
      · rw [List.drop_append_of_le_length hkle]; exact ih _ t hm
    | globstar =>
      simp only [gmatch, List.any_eq_true, List.mem_range] at h ⊢
      obtain ⟨k, hk, hm⟩ := h
      have hkle : k ≤ s.length := Nat.lt_succ_iff.mp hk
      refine ⟨k, ?_, ?_⟩
      · simp only [List.length_append]
        omega
      · rw [List.drop_append_of_le_length hkle]; exact ih _ t hm

/-- A prefix match is in particular a successful unanchored search. -/
theorem gmatch_searchMatch (ts : List GItem) (s : List Char)
    (h : gmatch ts s = true) : searchMatch ts s = true := by
  cases s with
  | nil => simpa [searchMatch] using h
  | cons c s' => simp [searchMatch, h]

/-- A successful unanchored search in `s` is also successful in
`s ++ t`. -/
theorem searchMatch_append (ts : List GItem) :
    ∀ s t : List Char, searchMatch ts s = true → searchMatch ts (s ++ t) = true := by
  intro s
  induction s with
  | nil =>
    intro t h
    simp only [searchMatch] at h
    exact gmatch_searchMatch ts t (gmatch_append ts [] t h)
  | cons c s' ih =>
    intro t h
    simp only [searchMatch, Bool.or_eq_true] at h ⊢
    cases h with
    | inl h => exact Or.inl (gmatch_append ts (c :: s') t h)
    | inr h => exact Or.inr (ih t h)

/-- Monotonicity of `matchGlob` in the path, before lifting to
`String` append. -/
theorem matchGlob_extend (path suffix pattern : String)
    (h : matchGlob path pattern = true) :
    matchGlob (path ++ suffix) pattern = true := by
  unfold matchGlob at h ⊢
  have hdata : (path ++ suffix).toList = path.toList ++ suffix.toList := by
    simp [String.toList]
  rw [hdata]
  cases htrim : trimChars pattern.toList with
  | nil => rw [htrim] at h; exact absurd h (by simp)
  | cons c rest =>
    rw [htrim] at h
    by_cases hc : c = '*'
    · simp only [hc, if_pos rfl] at h ⊢
      exact searchMatch_append _ _ _ h
    · simp only [if_neg hc] at h ⊢
      exact gmatch_append _ _ _ h

/-- Monotonicity of `shouldExclude` in the path. -/
theorem shouldExclude_extend (path suffix : String) (patterns : List String)
    (h : shouldExclude path patterns = true) :
    shouldExclude (path ++ suffix) patterns = true := by
  simp only [shouldExclude, List.any_eq_true] at h ⊢
  obtain ⟨p, hp, hm⟩ := h
  exact ⟨p, hp, matchGlob_extend path suffix p hm⟩

/-! ### Characterizing the loops of `computeDiff`

Each loop body pushes a path (or conflict record) onto exactly one of
the output lists; a `foldl` of such a step is characterized field by
field by the contribution of each iteration. -/

/-- A fold whose step appends a per-element cell to one projected field
accumulates the concatenation of the cells. -/
theorem foldl_field {α γ : Type _} {β : Type _} (step : γ → α → γ)
    (proj : γ → List β) (cell : α → List β)
    (hstep : ∀ acc a, proj (step acc a) = proj acc ++ cell a)
    (ps : List α) (acc : γ) :
    proj (ps.foldl step acc) = proj acc ++ ps.flatMap cell := by
  induction ps generalizing acc with
  | nil => simp
  | cons p ps ih =>
    simp only [List.foldl_cons, List.flatMap_cons, ih, hstep, List.append_assoc]

/-- One first-loop iteration appends its per-field cells. -/
theorem diffStepLocal_eq (localMeta remoteMeta : Option SyncMeta)
    (filesList : List DriveFileInfo) (currentLocalMeta : SyncMeta)
    (remoteFilePaths : List String) (diff : SyncDiff) (path : String) :
    diffStepLocal localMeta remoteMeta filesList currentLocalMeta
        remoteFilePaths diff path =
      { toUpload := diff.toUpload ++
          localUploadCell localMeta remoteMeta currentLocalMeta
            remoteFilePaths path
        toDownload := diff.toDownload ++
          localDownloadCell localMeta remoteMeta filesList currentLocalMeta
            remoteFilePaths path
        conflicts := diff.conflicts ++
          localConflictCell localMeta remoteMeta currentLocalMeta
            remoteFilePaths path
        deletedLocally := diff.deletedLocally
        deletedRemotely := diff.deletedRemotely ++
          localDeletedRemotelyCell remoteMeta remoteFilePaths path } := by
  by_cases hc : path ∈ remoteFilePaths
  case neg =>
    cases h1 : remoteMeta.bind (fun m => m.find path) <;>
      simp [diffStepLocal, localUploadCell, localDownloadCell,
        localConflictCell, localDeletedRemotelyCell, hc, h1]
  case pos =>
    cases h2 : currentLocalMeta.find path with
    | none =>
      simp [diffStepLocal, localUploadCell, localDownloadCell,
        localConflictCell, localDeletedRemotelyCell, hc, h2]
    | some localFileInfo =>
      cases h3 : remoteMeta.bind (fun m => m.find path) with
      | none =>
        simp only [diffStepLocal, localUploadCell, localDownloadCell,
          localConflictCell, localDeletedRemotelyCell, hc, h2, h3,
          Bool.not_true, Bool.false_eq_true, if_false]
        repeat' split <;> simp_all
      | some remoteFileInfo =>
        simp only [diffStepLocal, localUploadCell, localDownloadCell,
          localConflictCell, localDeletedRemotelyCell, hc, h2, h3,
          Bool.not_true, Bool.false_eq_true, if_false]
        by_cases hb : (localChangedB localFileInfo
            (localMeta.bind fun m => m.find path)
              && remoteChangedB remoteFileInfo
                (localMeta.bind fun m => m.find path)) = true
        · simp [hb, hc]
        · simp only [hb, if_false, Bool.false_eq_true]
          by_cases hl : localChangedB localFileInfo
              (localMeta.bind fun m => m.find path) = true
          · simp [hb, hl, hc]
          · simp only [hl, if_false, Bool.false_eq_true]
            by_cases hr : remoteChangedB remoteFileInfo
                (localMeta.bind fun m => m.find path) = true
            · simp [hb, hl, hr, hc]
            · simp [hb, hl, hr, hc]

/-- One second-loop iteration appends its per-field cells. -/
theorem diffStepRemote_eq (localMeta : Option SyncMeta)
    (localFilePaths : List String) (diff : SyncDiff) (path : String) :
    diffStepRemote localMeta localFilePaths diff path =
      { toUpload := diff.toUpload
        toDownload := diff.toDownload ++
          remoteDownloadCell localMeta localFilePaths path
        conflicts := diff.conflicts
        deletedLocally := diff.deletedLocally ++
          remoteDeletedLocallyCell localMeta localFilePaths path
        deletedRemotely := diff.deletedRemotely } := by
  by_cases hc : path ∈ localFilePaths
  case pos =>
    simp [diffStepRemote, remoteDownloadCell, remoteDeletedLocallyCell, hc]
  case neg =>
    cases h1 : localMeta.bind (fun m => m.find path) <;>
      simp [diffStepRemote, remoteDownloadCell, remoteDeletedLocallyCell,
        hc, h1]

/-- `conflicts` of `computeDiff`: the per-path conflict cells of the
first loop. -/
theorem computeDiff_conflicts (localMeta remoteMeta : Option SyncMeta)
    (filesList : List DriveFileInfo) (vault : List VaultFile)
    (excludePatterns : List String) (now : String) :
    (computeDiff localMeta remoteMeta filesList vault excludePatterns now).conflicts =
      (localFilePathsOf vault excludePatterns).flatMap
        (localConflictCell localMeta remoteMeta
          (buildMetaFromVault vault excludePatterns now)
          (remoteFilePathsOf filesList excludePatterns)) := by
  unfold computeDiff
  rw [foldl_field
      (diffStepRemote localMeta (localFilePathsOf vault excludePatterns))
      SyncDiff.conflicts (fun _ => [])
      (fun acc a => by rw [diffStepRemote_eq]; simp),
    foldl_field
      (diffStepLocal localMeta remoteMeta filesList
        (buildMetaFromVault vault excludePatterns now)
        (remoteFilePathsOf filesList excludePatterns))
      SyncDiff.conflicts
      (localConflictCell localMeta remoteMeta
        (buildMetaFromVault vault excludePatterns now)
        (remoteFilePathsOf filesList excludePatterns))
      (fun acc a => by rw [diffStepLocal_eq])]
  simp [emptyDiff]

/-- `toUpload` of `computeDiff`: the per-path upload cells of the
first loop. -/
theorem computeDiff_toUpload (localMeta remoteMeta : Option SyncMeta)
    (filesList : List DriveFileInfo) (vault : List VaultFile)
    (excludePatterns : List String) (now : String) :
    (computeDiff localMeta remoteMeta filesList vault excludePatterns now).toUpload =
      (localFilePathsOf vault excludePatterns).flatMap
        (localUploadCell localMeta remoteMeta
          (buildMetaFromVault vault excludePatterns now)
          (remoteFilePathsOf filesList excludePatterns)) := by
  unfold computeDiff
  rw [foldl_field
      (diffStepRemote localMeta (localFilePathsOf vault excludePatterns))
      SyncDiff.toUpload (fun _ => [])
      (fun acc a => by rw [diffStepRemote_eq]; simp),
    foldl_field
      (diffStepLocal localMeta remoteMeta filesList
        (buildMetaFromVault vault excludePatterns now)
        (remoteFilePathsOf filesList excludePatterns))
      SyncDiff.toUpload
      (localUploadCell localMeta remoteMeta
        (buildMetaFromVault vault excludePatterns now)
        (remoteFilePathsOf filesList excludePatterns))
      (fun acc a => by rw [diffStepLocal_eq])]
  simp [emptyDiff]

/-- `toDownload` of `computeDiff`: first-loop download cells followed
by second-loop download cells. -/
theorem computeDiff_toDownload (localMeta remoteMeta : Option SyncMeta)
    (filesList : List DriveFileInfo) (vault : List VaultFile)
    (excludePatterns : List String) (now : String) :
    (computeDiff localMeta remoteMeta filesList vault excludePatterns now).toDownload =
      (localFilePathsOf vault excludePatterns).flatMap
          (localDownloadCell localMeta remoteMeta filesList
            (buildMetaFromVault vault excludePatterns now)
            (remoteFilePathsOf filesList excludePatterns)) ++
        (remoteFilePathsOf filesList excludePatterns).flatMap
          (remoteDownloadCell localMeta
            (localFilePathsOf vault excludePatterns)) := by
  unfold computeDiff
  rw [foldl_field
      (diffStepRemote localMeta (localFilePathsOf vault excludePatterns))
      SyncDiff.toDownload
      (remoteDownloadCell localMeta (localFilePathsOf vault excludePatterns))
      (fun acc a => by rw [diffStepRemote_eq]),
    foldl_field
      (diffStepLocal localMeta remoteMeta filesList
        (buildMetaFromVault vault excludePatterns now)
        (remoteFilePathsOf filesList excludePatterns))
      SyncDiff.toDownload
      (localDownloadCell localMeta remoteMeta filesList
        (buildMetaFromVault vault excludePatterns now)
        (remoteFilePathsOf filesList excludePatterns))
      (fun acc a => by rw [diffStepLocal_eq])]
  simp [emptyDiff]

/-- `deletedLocally` of `computeDiff`: the second-loop cells. -/
theorem computeDiff_deletedLocally (localMeta remoteMeta : Option SyncMeta)
    (filesList : List DriveFileInfo) (vault : List VaultFile)
    (excludePatterns : List String) (now : String) :
    (computeDiff localMeta remoteMeta filesList vault excludePatterns now).deletedLocally =
      (remoteFilePathsOf filesList excludePatterns).flatMap
        (remoteDeletedLocallyCell localMeta
          (localFilePathsOf vault excludePatterns)) := by
  unfold computeDiff
  rw [foldl_field
      (diffStepRemote localMeta (localFilePathsOf vault excludePatterns))
      SyncDiff.deletedLocally
      (remoteDeletedLocallyCell localMeta
        (localFilePathsOf vault excludePatterns))
      (fun acc a => by rw [diffStepRemote_eq]),
    foldl_field
      (diffStepLocal localMeta remoteMeta filesList
        (buildMetaFromVault vault excludePatterns now)
        (remoteFilePathsOf filesList excludePatterns))
      SyncDiff.deletedLocally (fun _ => [])
      (fun acc a => by rw [diffStepLocal_eq]; simp)]
  simp [emptyDiff]

/-- `deletedRemotely` of `computeDiff`: the first-loop cells. -/
theorem computeDiff_deletedRemotely (localMeta remoteMeta : Option SyncMeta)
    (filesList : List DriveFileInfo) (vault : List VaultFile)
    (excludePatterns : List String) (now : String) :
    (computeDiff localMeta remoteMeta filesList vault excludePatterns now).deletedRemotely =
      (localFilePathsOf vault excludePatterns).flatMap
        (localDeletedRemotelyCell remoteMeta
          (remoteFilePathsOf filesList excludePatterns)) := by
  unfold computeDiff
  rw [foldl_field
      (diffStepRemote localMeta (localFilePathsOf vault excludePatterns))
      SyncDiff.deletedRemotely (fun _ => [])
      (fun acc a => by rw [diffStepRemote_eq]; simp),
    foldl_field
      (diffStepLocal localMeta remoteMeta filesList
        (buildMetaFromVault vault excludePatterns now)
        (remoteFilePathsOf filesList excludePatterns))
      SyncDiff.deletedRemotely
      (localDeletedRemotelyCell remoteMeta
        (remoteFilePathsOf filesList excludePatterns))
      (fun acc a => by rw [diffStepLocal_eq])]
  simp [emptyDiff]

/-! ### Lookup lemmas -/

theorem mem_localFilePathsOf (vault : List VaultFile)
    (excludePatterns : List String) (path : String) :
    path ∈ localFilePathsOf vault excludePatterns ↔
      ∃ f ∈ vault, f.path = path ∧
        shouldExclude f.path excludePatterns = false ∧
        f.path ≠ META_FILE_NAME_LOCAL := by
  simp only [localFilePathsOf, List.mem_map, List.mem_filter,
    Bool.and_eq_true, Bool.not_eq_true', beq_eq_false_iff_ne, ne_eq]
  constructor
  · rintro ⟨f, ⟨hf, hx, hm⟩, rfl⟩
    exact ⟨f, hf, rfl, hx, hm⟩
  · rintro ⟨f, hf, rfl, hx, hm⟩
    exact ⟨f, ⟨hf, hx, hm⟩, rfl⟩

theorem mem_remoteFilePathsOf (filesList : List DriveFileInfo)
    (excludePatterns : List String) (path : String) :
    path ∈ remoteFilePathsOf filesList excludePatterns ↔
      ∃ f ∈ filesList, f.name = path ∧
        f.name ≠ META_FILE_NAME_REMOTE ∧
        shouldExclude f.name excludePatterns = false := by
  simp only [remoteFilePathsOf, List.mem_map, List.mem_filter,
    Bool.and_eq_true, Bool.not_eq_true', beq_eq_false_iff_ne, ne_eq]
  constructor
  · rintro ⟨f, ⟨hf, hm, hx⟩, rfl⟩
    exact ⟨f, hf, rfl, hm, hx⟩
  · rintro ⟨f, hf, rfl, hm, hx⟩
    exact ⟨f, ⟨hf, hm, hx⟩, rfl⟩

/-- Under distinct vault paths, `buildMetaFromVault` records exactly
the hash and mtime of each kept file. -/
theorem buildMetaFromVault_find (vault : List VaultFile)
    (excludePatterns : List String) (now : String) (vf : VaultFile)
    (hnodup : (vault.map (·.path)).Nodup) (hvf : vf ∈ vault)
    (hml : vf.path ≠ META_FILE_NAME_LOCAL)
    (hmr : vf.path ≠ META_FILE_NAME_REMOTE)
    (hx : shouldExclude vf.path excludePatterns = false) :
    (buildMetaFromVault vault excludePatterns now).find vf.path =
      some { hash := vf.hash, modifiedTime := vf.mtime } := by
  induction vault with
  | nil => cases hvf
  | cons g rest ih =>
    simp only [List.map_cons, List.nodup_cons, List.mem_map] at hnodup
    rcases List.mem_cons.mp hvf with rfl | hvf'
    · simp [buildMetaFromVault, SyncMeta.find, List.filter_cons, hml, hmr, hx,
        List.find?_cons]
    · have hgp : g.path ≠ vf.path := by
        intro h
        exact hnodup.1 ⟨vf, hvf', h.symm⟩
      have ihx := ih hnodup.2 hvf'
      simp only [buildMetaFromVault, SyncMeta.find] at ihx ⊢
      rw [List.filter_cons]
      cases hg : (!(g.path == META_FILE_NAME_LOCAL)
          && !(g.path == META_FILE_NAME_REMOTE)
          && !shouldExclude g.path excludePatterns) with
      | true =>
        rw [if_pos rfl, List.map_cons,
          List.find?_cons_of_neg _ (by simp [hgp])]
        exact ihx
      | false =>
        rw [if_neg (by simp)]
        exact ihx

/-- A conflict record produced while processing path `q` carries `q`
as its path. -/
theorem localConflictCell_path (localMeta remoteMeta : Option SyncMeta)
    (currentLocalMeta : SyncMeta) (remoteFilePaths : List String)
    (q : String) (c : ConflictInfo)
    (hc : c ∈ localConflictCell localMeta remoteMeta currentLocalMeta
      remoteFilePaths q) : c.path = q := by
  unfold localConflictCell at hc
  by_cases h1 : (!(remoteFilePaths.contains q)) = true
  · rw [if_pos h1] at hc
    simp at hc
  · rw [if_neg h1] at hc
    cases h2 : currentLocalMeta.find q with
    | none => simp [h2] at hc
    | some lfi =>
      simp only [h2] at hc
      cases h3 : remoteMeta.bind (fun m => m.find q) with
      | none => simp [h3] at hc
      | some ri =>
        simp only [h3] at hc
        split at hc
        · simp only [List.mem_singleton] at hc
          rw [hc]
        · simp at hc

/-- Every operation of one Full Pull file cell is a download of that
file's path or a conflict-folder save of it. -/
theorem pullAllFileOps_shape (rm : SyncMeta) (vault : List VaultFile)
    (conflictFolder now : String) (dg : DriveFileInfo) (o : Op)
    (ho : o ∈ pullAllFileOps rm vault conflictFolder now dg) :
    o = .download dg.name ∨
      o = .saveLocalToConflict dg.name
        (generateConflictFilename dg.name conflictFolder now) := by
  unfold pullAllFileOps at ho
  rcases h1 : vaultFind vault dg.name with _ | g
  · simp only [h1, List.mem_singleton] at ho
    exact Or.inl ho
  · simp only [h1] at ho
    rcases h2 : rm.find dg.name with _ | ri
    · simp only [h2, List.mem_singleton] at ho
      exact Or.inl ho
    · simp only [h2] at ho
      by_cases he : (g.hash == ri.hash) = true
      · rw [if_pos he] at ho
        simp at ho
      · rw [if_neg he] at ho
        simp only [List.mem_cons, List.mem_singleton, List.not_mem_nil,
          or_false] at ho
        rcases ho with rfl | rfl
        · exact Or.inr rfl
        · exact Or.inl rfl

/-- A remote-side conflict save is exactly the save of its path. -/
theorem pullSaveRemoteOp_shape (filesList : List DriveFileInfo)
    (conflictFolder now path : String) (o : Op)
    (ho : o ∈ pullSaveRemoteOp filesList conflictFolder now path) :
    o = .saveRemoteToConflict path
      (generateConflictFilename path conflictFolder now) := by
  unfold pullSaveRemoteOp at ho
  rcases hf : filesList.find? (fun f => f.name == path) with _ | d <;>
    simp only [hf] at ho
  · cases ho
  · simpa using ho

/-- A local-side conflict save is exactly the save of its path. -/
theorem pullSaveLocalOp_shape (vault : List VaultFile)
    (conflictFolder now path : String) (o : Op)
    (ho : o ∈ pullSaveLocalOp vault conflictFolder now path) :
    o = .saveLocalToConflict path
      (generateConflictFilename path conflictFolder now) := by
  unfold pullSaveLocalOp at ho
  rcases hf : vaultFind vault path with _ | g <;> simp only [hf] at ho
  · cases ho
  · simpa using ho

/-- Every op of a planning cell is a conflict save of that entry's
path. -/
theorem pullPlanOpsCell_shape (localMeta : Option SyncMeta)
    (actualLocalMeta : SyncMeta)
    (resolutions : List (String × Resolution))
    (filesList : List DriveFileInfo) (vault : List VaultFile)
    (excludePatterns : List String) (conflictFolder now : String)
    (e : String × FileMetadata) (o : Op)
    (ho : o ∈ pullPlanOpsCell localMeta actualLocalMeta resolutions
      filesList vault excludePatterns conflictFolder now e) :
    o = .saveRemoteToConflict e.1
        (generateConflictFilename e.1 conflictFolder now) ∨
      o = .saveLocalToConflict e.1
        (generateConflictFilename e.1 conflictFolder now) := by
  unfold pullPlanOpsCell at ho
  split at ho
  · cases ho
  · rcases h1 : actualLocalMeta.find e.1 with _ | ali <;>
      simp only [h1] at ho
    · cases ho
    · rcases h2 : localMeta.bind (fun m => m.find e.1) with _ | lmi <;>
        simp only [h2] at ho
      · split at ho
        · split at ho
          · exact Or.inl (pullSaveRemoteOp_shape _ _ _ _ _ ho)
          · exact Or.inr (pullSaveLocalOp_shape _ _ _ _ _ ho)
        · cases ho
      · split at ho
        · split at ho
          · cases ho
          · split at ho
            · exact Or.inl (pullSaveRemoteOp_shape _ _ _ _ _ ho)
            · exact Or.inr (pullSaveLocalOp_shape _ _ _ _ _ ho)
        · cases ho

/-- Every path of a download cell is that entry's path. -/
theorem pullDownloadCell_shape (localMeta : Option SyncMeta)
    (actualLocalMeta : SyncMeta)
    (resolutions : List (String × Resolution))
    (excludePatterns : List String) (e : String × FileMetadata)
    (p : String)
    (hp : p ∈ pullDownloadCell localMeta actualLocalMeta resolutions
      excludePatterns e) : p = e.1 := by
  unfold pullDownloadCell at hp
  split at hp
  · cases hp
  · rcases h1 : actualLocalMeta.find e.1 with _ | ali <;>
      simp only [h1] at hp
    · rcases h2 : localMeta.bind (fun m => m.find e.1) with _ | lmi <;>
        simp only [h2] at hp
      · simpa using hp
      · split at hp
        · simpa using hp
        · cases hp
    · rcases h2 : localMeta.bind (fun m => m.find e.1) with _ | lmi <;>
        simp only [h2] at hp
      · split at hp
        · split at hp
          · cases hp
          · simpa using hp
        · cases hp
      · split at hp
        · split at hp
          · simpa using hp
          · split at hp
            · cases hp
            · simpa using hp
        · cases hp

/-- Every path of a delete-planning cell is that entry's path, and the
deletion guard held for it. -/
theorem pullToDeleteCell_shape (remoteMeta localMeta actualLocalMeta :
      SyncMeta)
    (vault : List VaultFile) (excludePatterns : List String)
    (resolutions : List (String × Resolution))
    (e : String × FileMetadata) (p : String)
    (hp : p ∈ pullToDeleteCell remoteMeta localMeta actualLocalMeta vault
      excludePatterns resolutions e) :
    p = e.1 ∧
      pullDeleteGuard remoteMeta vault excludePatterns e.1 = true := by
  unfold pullToDeleteCell at hp
  split at hp
  · rename_i hguard
    split at hp
    · cases hp
    · simp only [List.mem_singleton] at hp
      exact ⟨hp, hguard⟩
  · cases hp

/-- Every record of a modified-deletes cell carries that entry's path,
with the guard, the modification check and the absence of both
resolutions. -/
theorem pullModifiedDeletesCell_shape (remoteMeta localMeta
      actualLocalMeta : SyncMeta)
    (vault : List VaultFile) (excludePatterns : List String)
    (resolutions : List (String × Resolution))
    (e : String × FileMetadata) (md : ModifiedDeleteInfo)
    (hmd : md ∈ pullModifiedDeletesCell remoteMeta localMeta
      actualLocalMeta vault excludePatterns resolutions e) :
    md.path = e.1 ∧
      pullDeleteGuard remoteMeta vault excludePatterns e.1 = true ∧
      pullIsModified localMeta actualLocalMeta e.1 = true ∧
      resolutionFor resolutions e.1 ≠ some .keepLocal ∧
      resolutionFor resolutions e.1 ≠ some .keepRemote := by
  unfold pullModifiedDeletesCell at hmd
  split at hmd
  · rename_i hguard
    split at hmd
    · rename_i hmod
      simp only [List.mem_singleton] at hmd
      subst hmd
      simp only [Bool.and_eq_true, Bool.not_eq_true',
        decide_eq_false_iff_not] at hmod
      exact ⟨rfl, hguard, hmod.1.1, hmod.1.2, hmod.2⟩
    · cases hmd
  · cases hmd

/-- Every op of a backup cell is the conflict save or the failure log
of that record's path. -/
theorem pullBackupOps_shape (vaultAfter : List VaultFile)
    (conflictFolder now : String) (backupFails : String → Bool)
    (info : ModifiedDeleteInfo) (o : Op)
    (ho : o ∈ pullBackupOps vaultAfter conflictFolder now backupFails
      info) :
    o = .logBackupFailure info.path ∨
      o = .saveLocalToConflict info.path
        (generateConflictFilename info.path conflictFolder now) := by
  unfold pullBackupOps at ho
  rcases h1 : vaultFind vaultAfter info.path with _ | g <;>
    simp only [h1] at ho
  · cases ho
  · split at ho
    · simp only [List.mem_singleton] at ho
      exact Or.inl ho
    · simp only [List.mem_singleton] at ho
      exact Or.inr ho

/-- Every op of a deletion cell is the local delete of that path. -/
theorem pullDeleteOps_shape (vaultAfter : List VaultFile)
    (modifiedDeletes : List ModifiedDeleteInfo)
    (successfulBackups : List String) (p : String) (o : Op)
    (ho : o ∈ pullDeleteOps vaultAfter modifiedDeletes successfulBackups
      p) : o = .deleteLocal p := by
  unfold pullDeleteOps at ho
  split at ho
  · cases ho
  · rcases h1 : vaultFind vaultAfter p with _ | g <;>
      simp only [h1] at ho
    · cases ho
    · simpa using ho

/-- An entry found in a snapshot is one of its entries. -/
theorem SyncMeta.find_mem (m : SyncMeta) (p : String) (S : FileMetadata)
    (h : m.find p = some S) : (p, S) ∈ m.files := by
  unfold SyncMeta.find at h
  rcases hf : m.files.find? (fun e => e.1 == p) with _ | e <;>
    rw [hf] at h
  · cases h
  · have h1 : e.1 = p := by simpa using List.find?_some hf
    have h2 : e.2 = S := by simpa using h
    have := List.mem_of_find?_eq_some hf
    rwa [show (p, S) = e from Prod.ext h1.symm h2.symm]

/-- `find` returns `none` exactly when no entry has that path. -/
theorem SyncMeta.find_eq_none (m : SyncMeta) (p : String)
    (h : m.find p = none) : ∀ e ∈ m.files, e.1 ≠ p := by
  unfold SyncMeta.find at h
  rcases hf : m.files.find? (fun e => e.1 == p) with _ | e <;> rw [hf] at h
  · intro e he
    have := List.find?_eq_none.mp hf e he
    simpa using this
  · cases h

/-- Updating entries of one path preserves lookups of other paths. -/
theorem vaultFind_map_update (v : List VaultFile) (q hsh m p : String)
    (hne : q ≠ p) :
    List.find? (fun f => f.path == p)
      (v.map fun f => if f.path == q then
        { f with hash := hsh, mtime := m } else f) =
    List.find? (fun f => f.path == p) v := by
  induction v with
  | nil => rfl
  | cons g rest ih =>
    simp only [List.map_cons]
    by_cases hq : (g.path == q) = true
    · have hgq : g.path = q := by simpa using hq
      have h1 : (g.path == p) = false := by simp [hgq, hne]
      have h2 : (({ g with hash := hsh, mtime := m } :
          VaultFile).path == p) = false := by simp [hgq, hne]
      rw [if_pos hq]
      simp only [List.find?_cons, h1, h2]
      exact ih
    · rw [if_neg hq]
      by_cases hp : (g.path == p) = true
      · simp only [List.find?_cons, hp]
      · have hp' : (g.path == p) = false := by simpa using hp
        simp only [List.find?_cons, hp']
        exact ih

/-- Overwriting one path leaves lookups of other paths unchanged. -/
theorem vaultFind_vaultUpsert_ne (v : List VaultFile)
    (q hsh m p : String) (hne : q ≠ p) :
    vaultFind (vaultUpsert v q hsh m) p = vaultFind v p := by
  unfold vaultUpsert vaultFind
  split
  · exact vaultFind_map_update v q hsh m p hne
  · rw [List.find?_append]
    have h1 : List.find? (fun f => f.path == p)
        ([{ path := q, hash := hsh, mtime := m }] : List VaultFile) =
        none := by simp [hne]
    rw [h1]
    simp

/-- Downloads of other paths leave a lookup unchanged. -/
theorem vaultFind_applyDownloads_not_mem (filesList : List DriveFileInfo)
    (now p : String) :
    ∀ (paths : List String) (v : List VaultFile), p ∉ paths →
      vaultFind (applyDownloads v filesList now paths) p =
        vaultFind v p := by
  intro paths
  induction paths with
  | nil => intro v _; rfl
  | cons q rest ih =>
    intro v hp
    have hq : q ≠ p := fun h => hp (by rw [h]; exact List.mem_cons_self _ _)
    have hrest : p ∉ rest := fun h => hp (List.mem_cons_of_mem _ h)
    unfold applyDownloads
    simp only [List.foldl_cons]
    have := ih (match filesList.find? (fun f => f.name == q) with
      | some df => vaultUpsert v q df.contentHash now
      | none => v) hrest
    unfold applyDownloads at this
    rw [this]
    rcases hf : filesList.find? (fun f => f.name == q) with _ | df <;>
      simp only [hf]
    exact vaultFind_vaultUpsert_ne v q df.contentHash now p hq

/-- One work-list iteration appends its cell. -/
theorem pushUploadStep_eq (remoteMeta : Option SyncMeta)
    (filesList : List DriveFileInfo)
    (resolutions : List (String × Resolution)) (acc : List String)
    (e : String × FileMetadata) :
    pushUploadStep remoteMeta filesList resolutions acc e =
      acc ++ pushUploadCell remoteMeta filesList resolutions e := by
  unfold pushUploadStep pushUploadCell
  rcases hf : filesList.find? (fun f => f.name == e.1) with _ | d <;>
    simp only [hf]
  split
  · split
    · rfl
    · simp
  · simp

/-- The work list is the concatenation of the per-entry cells. -/
theorem performPushToUpload_eq (localMeta : SyncMeta)
    (remoteMeta : Option SyncMeta) (filesList : List DriveFileInfo)
    (resolutions : List (String × Resolution)) :
    performPushToUpload localMeta remoteMeta filesList resolutions =
      localMeta.files.flatMap
        (pushUploadCell remoteMeta filesList resolutions) := by
  unfold performPushToUpload
  have := foldl_field (pushUploadStep remoteMeta filesList resolutions) id
    (pushUploadCell remoteMeta filesList resolutions)
    (fun acc e => pushUploadStep_eq remoteMeta filesList resolutions acc e)
    localMeta.files []
  simpa using this

/-- Every path of a work-list cell is that entry's path. -/
theorem pushUploadCell_shape (remoteMeta : Option SyncMeta)
    (filesList : List DriveFileInfo)
    (resolutions : List (String × Resolution))
    (e : String × FileMetadata) (p : String)
    (hp : p ∈ pushUploadCell remoteMeta filesList resolutions e) :
    p = e.1 := by
  unfold pushUploadCell at hp
  rcases hf : filesList.find? (fun f => f.name == e.1) with _ | d <;>
    simp only [hf] at hp
  · simpa using hp
  · split at hp
    · split at hp
      · simpa using hp
      · cases hp
    · cases hp

/-- Every key of the snapshot built from the live vault names a live
file. -/
theorem buildMetaFromVault_key_isSome (vault : List VaultFile)
    (excludePatterns : List String) (now : String)
    (e : String × FileMetadata)
    (he : e ∈ (buildMetaFromVault vault excludePatterns now).files) :
    (vaultFind vault e.1).isSome = true := by
  unfold buildMetaFromVault at he
  simp only [List.mem_map] at he
  obtain ⟨g, hg, hge⟩ := he
  have hgv : g ∈ vault := List.mem_of_mem_filter hg
  have : g.path = e.1 := by rw [← hge]
  unfold vaultFind
  rw [List.find?_isSome]
  exact ⟨g, hgv, by simp [this]⟩

/-- `performPull` always ends with exactly one local-snapshot write,
and nothing before it is a snapshot write. -/
theorem performPull_trace_shape (remoteMeta : SyncMeta)
    (filesList : List DriveFileInfo)
    (resolutions : List (String × Resolution))
    (actualLocalMeta : SyncMeta) (localMeta : Option SyncMeta)
    (excludePatterns : List String) (conflictFolder : String)
    (vault : List VaultFile) (now : String)
    (backupFails : String → Bool) :
    ∃ pre m, performPull remoteMeta filesList resolutions actualLocalMeta
        localMeta excludePatterns conflictFolder vault now backupFails =
        pre ++ [Op.writeLocalMeta m] ∧
      (∀ op ∈ pre, op.isMetaWrite = false) ∧
      (∀ op ∈ pre, ∀ mm, op ≠ Op.writeRemoteMeta mm) := by
  refine ⟨_, _, rfl, ?_, ?_⟩ <;>
  · intro op hop
    simp only [List.mem_append] at hop
    rcases hop with ((((hop | hop) | hop) | hop) | hop)
    · rw [List.mem_flatMap] at hop
      obtain ⟨e, _, ho⟩ := hop
      rcases pullPlanOpsCell_shape _ _ _ _ _ _ _ _ _ _ ho with rfl | rfl <;>
        first
        | rfl
        | (intro mm; simp)
    · rw [List.mem_flatMap] at hop
      obtain ⟨p, _, ho⟩ := hop
      rcases hf : filesList.find? (fun f => f.name == p) with _ | d <;>
        simp only [hf] at ho
      · cases ho
      · simp only [List.mem_singleton] at ho
        subst ho
        first
        | rfl
        | (intro mm; simp)
    · rw [List.mem_flatMap] at hop
      obtain ⟨info, _, ho⟩ := hop
      rcases pullBackupOps_shape _ _ _ _ _ _ ho with rfl | rfl <;>
        first
        | rfl
        | (intro mm; simp)
    · unfold pullDeletePhase at hop
      rw [List.mem_flatMap] at hop
      obtain ⟨p, _, ho⟩ := hop
      rw [pullDeleteOps_shape _ _ _ _ _ ho]
      first
      | rfl
      | (intro mm; simp)
    · split at hop
      · cases hop
      · simp only [List.mem_singleton] at hop
        subst hop
        first
        | rfl
        | (intro mm; simp)

/-- When `performPush` runs on the snapshot built from the live vault
(as both its callers do), its trace is a block of transfers followed by
a block of snapshot writes, and the snapshot block is nonempty exactly
when the transfer block is. -/
theorem performPush_commit_gated (rmOpt : Option SyncMeta)
    (filesList : List DriveFileInfo)
    (resolutions : List (String × Resolution))
    (vault : List VaultFile) (patterns : List String) (now : String) :
    ∃ a b, performPush (buildMetaFromVault vault patterns now) rmOpt
        filesList resolutions vault now = a ++ b ∧
      (∀ op ∈ a, op.isTransfer = true) ∧
      (∀ op ∈ b, op.isMetaWrite = true) ∧
      (a = [] ↔ b = []) := by
  refine ⟨_, _, rfl, ?_, ?_, ?_⟩
  · intro op hop
    rw [List.mem_flatMap] at hop
    obtain ⟨p, _, ho⟩ := hop
    rcases hv : vaultFind vault p with _ | g <;> simp only [hv] at ho
    · cases ho
    · rcases hf : filesList.find? (fun f => f.name == p) with _ | d <;>
        simp only [hf] at ho <;> simp only [List.mem_singleton] at ho <;>
        subst ho <;> rfl
  · intro op hop
    split at hop
    · simp only [List.mem_cons, List.mem_singleton, List.not_mem_nil,
        or_false] at hop
      rcases hop with rfl | rfl <;> rfl
    · cases hop
  · have hcell : ∀ p ∈ performPushToUpload
        (buildMetaFromVault vault patterns now) rmOpt filesList
        resolutions,
        (match vaultFind vault p with
          | some _ =>
            match filesList.find? fun f => f.name == p with
            | some _ => [Op.modifyRemote p]
            | none => [Op.uploadNew p]
          | none => ([] : List Op)) ≠ [] := by
      intro p hp
      rw [performPushToUpload_eq, List.mem_flatMap] at hp
      obtain ⟨e, he, hpe⟩ := hp
      have hpe1 := pushUploadCell_shape rmOpt filesList resolutions e p hpe
      subst hpe1
      have hs := buildMetaFromVault_key_isSome vault patterns now e he
      rcases hv : vaultFind vault e.1 with _ | g
      · rw [hv] at hs; cases hs
      · simp only [hv]
        rcases hf : filesList.find? (fun f => f.name == e.1) with _ | d <;>
          simp only [hf] <;> simp
    constructor
    · intro ha
      have hempty : performPushToUpload
          (buildMetaFromVault vault patterns now) rmOpt filesList
          resolutions = [] := by
        by_contra hne
        obtain ⟨p, hp⟩ := List.exists_mem_of_ne_nil _ hne
        exact hcell p hp (List.flatMap_eq_nil_iff.mp ha p hp)
      rw [if_neg (by simp [hempty])]
    · intro hb
      have hempty : performPushToUpload
          (buildMetaFromVault vault patterns now) rmOpt filesList
          resolutions = [] := by
        by_contra hne
        rw [if_pos (by
          simpa [List.length_pos] using hne)] at hb
        cases hb
      rw [hempty]
      rfl

/-- Nothing is downloaded for a path absent from the remote
snapshot. -/
theorem pullToDownload_not_mem (remoteMeta : SyncMeta)
    (localMeta : Option SyncMeta) (actualLocalMeta : SyncMeta)
    (resolutions : List (String × Resolution))
    (excludePatterns : List String) (path : String)
    (h : remoteMeta.find path = none) :
    path ∉ pullToDownload remoteMeta localMeta actualLocalMeta
      resolutions excludePatterns := by
  intro hmem
  unfold pullToDownload at hmem
  rw [List.mem_flatMap] at hmem
  obtain ⟨e, he, hpe⟩ := hmem
  have hpath := pullDownloadCell_shape _ _ _ _ _ _ hpe
  exact SyncMeta.find_eq_none remoteMeta path h e he (by rw [hpath])

/-- For a path absent from the remote snapshot, the post-download
lookup equals the live one. -/
theorem pullVaultAfter_find (remoteMeta : SyncMeta)
    (filesList : List DriveFileInfo) (localMeta : Option SyncMeta)
    (actualLocalMeta : SyncMeta)
    (resolutions : List (String × Resolution))
    (excludePatterns : List String) (vault : List VaultFile)
    (now path : String) (h : remoteMeta.find path = none) :
    vaultFind (pullVaultAfter remoteMeta filesList localMeta
      actualLocalMeta resolutions excludePatterns vault now) path =
      vaultFind vault path :=
  vaultFind_applyDownloads_not_mem filesList now path _ vault
    (pullToDownload_not_mem remoteMeta localMeta actualLocalMeta
      resolutions excludePatterns path h)

/-- Every modified-deletes record names a modified path with a live
file. -/
theorem pullModifiedDeletes_shape (remoteMeta lm actualLocalMeta :
      SyncMeta)
    (vault : List VaultFile) (excludePatterns : List String)
    (resolutions : List (String × Resolution))
    (md : ModifiedDeleteInfo)
    (h : md ∈ pullModifiedDeletes remoteMeta (some lm) actualLocalMeta
      vault excludePatterns resolutions) :
    pullIsModified lm actualLocalMeta md.path = true ∧
      pullDeleteGuard remoteMeta vault excludePatterns md.path = true := by
  unfold pullModifiedDeletes at h
  rw [List.mem_flatMap] at h
  obtain ⟨e, _, hme⟩ := h
  obtain ⟨hp, hguard, hmod, _, _⟩ :=
    pullModifiedDeletesCell_shape _ _ _ _ _ _ _ _ hme
  rw [hp]
  exact ⟨hmod, hguard⟩

/-- Every planned deletion names a path with a live file. -/
theorem pullToDelete_shape (remoteMeta lm actualLocalMeta : SyncMeta)
    (vault : List VaultFile) (excludePatterns : List String)
    (resolutions : List (String × Resolution)) (p : String)
    (h : p ∈ pullToDelete remoteMeta (some lm) actualLocalMeta vault
      excludePatterns resolutions) :
    pullDeleteGuard remoteMeta vault excludePatterns p = true := by
  unfold pullToDelete at h
  rw [List.mem_flatMap] at h
  obtain ⟨e, _, hpe⟩ := h
  obtain ⟨hp, hguard⟩ := pullToDeleteCell_shape _ _ _ _ _ _ _ _ hpe
  rw [hp]
  exact hguard

/-- A live-vault snapshot has no key for a missing file. -/
theorem buildMetaFromVault_find_none (vault : List VaultFile)
    (excludePatterns : List String) (now path : String)
    (h : vaultFind vault path = none) :
    (buildMetaFromVault vault excludePatterns now).find path = none := by
  unfold buildMetaFromVault SyncMeta.find
  have hfe : List.find? (fun e => e.1 == path)
      ((vault.filter fun f => (!(f.path == META_FILE_NAME_LOCAL) &&
          !(f.path == META_FILE_NAME_REMOTE) &&
          !(shouldExclude f.path excludePatterns))).map
        fun f => (f.path, FileMetadata.mk f.hash f.mtime)) = none := by
    rw [List.find?_eq_none]
    intro e he
    simp only [List.mem_map] at he
    obtain ⟨g, hg, hge⟩ := he
    have hgv : g ∈ vault := List.mem_of_mem_filter hg
    intro hbeq
    have hgp : g.path = path := by
      have h1 : e.1 = path := by simpa using hbeq
      rw [← hge] at h1
      exact h1
    unfold vaultFind at h
    have h2 := List.find?_eq_none.mp h g hgv
    simp [hgp] at h2
  rw [hfe]
  simp

/-- Every `remoteDeleted` conflict names a tracked path whose live
snapshot entry exists. -/
theorem remoteDeletedConflictsOf_shape (lm rm currentLocalMeta : SyncMeta)
    (excludePatterns : List String) (c : ConflictInfo)
    (h : c ∈ remoteDeletedConflictsOf lm rm currentLocalMeta
      excludePatterns) :
    (currentLocalMeta.find c.path).isSome = true ∧
      c.remoteDeleted = true := by
  unfold remoteDeletedConflictsOf at h
  rw [List.mem_flatMap] at h
  obtain ⟨e, _, hce⟩ := h
  split at hce
  · cases hce
  · split at hce
    · cases hce
    · rcases h1 : currentLocalMeta.find e.1 with _ | ali <;>
        simp only [h1] at hce
      · cases hce
      · split at hce
        · simp only [List.mem_singleton] at hce
          subst hce
          simp [h1]
        · cases hce

/-- The snapshot built from the live vault records exactly the live
file's hash and mtime at each live, unexcluded, non-meta path. -/
theorem buildMetaFromVault_find_live (vault : List VaultFile)
    (patterns : List String) (now path : String) (vf : VaultFile)
    (hnodup : (vault.map fun f => f.path).Nodup)
    (hv : vaultFind vault path = some vf)
    (hml : path ≠ META_FILE_NAME_LOCAL)
    (hmr : path ≠ META_FILE_NAME_REMOTE)
    (hx : shouldExclude path patterns = false) :
    (buildMetaFromVault vault patterns now).find path =
      some { hash := vf.hash, modifiedTime := vf.mtime } := by
  have hvfmem : vf ∈ vault := List.mem_of_find?_eq_some hv
  have hvfpath : vf.path = path := by simpa using List.find?_some hv
  have h1 := buildMetaFromVault_find vault patterns now vf hnodup hvfmem
    (by rw [hvfpath]; exact hml) (by rw [hvfpath]; exact hmr)
    (by rw [hvfpath]; exact hx)
  rwa [hvfpath] at h1

/-- The deletion-planning guard holds for a live, unexcluded path gone
from the remote snapshot. -/
theorem pullDeleteGuard_holds (rm : SyncMeta) (vault : List VaultFile)
    (patterns : List String) (path : String) (vf : VaultFile)
    (hrm : rm.find path = none)
    (hx : shouldExclude path patterns = false)
    (hv : vaultFind vault path = some vf) :
    pullDeleteGuard rm vault patterns path = true := by
  unfold pullDeleteGuard
  rw [hrm, hx, hv]
  rfl

/-- `isModified` is false when the live hash equals the snapshot
hash. -/
theorem pullIsModified_of_eq (lm alm : SyncMeta) (path : String)
    (a S : FileMetadata) (halm : alm.find path = some a)
    (hlm : lm.find path = some S) (hh : a.hash = S.hash) :
    pullIsModified lm alm path = false := by
  unfold pullIsModified
  rw [halm, hlm]
  simp [hh]

/-- `isModified` is true when the live hash differs from the snapshot
hash. -/
theorem pullIsModified_of_ne (lm alm : SyncMeta) (path : String)
    (a S : FileMetadata) (halm : alm.find path = some a)
    (hlm : lm.find path = some S) (hh : a.hash ≠ S.hash) :
    pullIsModified lm alm path = true := by
  unfold pullIsModified
  rw [halm, hlm]
  simp [hh]

/-- With no resolutions, every guarded tracked path is slated for
deletion. -/
theorem pullToDelete_mem (rm lm alm : SyncMeta) (vault : List VaultFile)
    (patterns : List String) (p : String) (S : FileMetadata)
    (hlm : lm.find p = some S)
    (hguard : pullDeleteGuard rm vault patterns p = true) :
    p ∈ pullToDelete rm (some lm) alm vault patterns [] := by
  unfold pullToDelete
  rw [List.mem_flatMap]
  refine ⟨(p, S), SyncMeta.find_mem lm p S hlm, ?_⟩
  unfold pullToDeleteCell
  simp [hguard, resolutionFor]

/-- With no resolutions, every guarded modified tracked path yields a
modified-deletes record carrying its live modification time. -/
theorem pullModifiedDeletes_mem (rm lm alm : SyncMeta)
    (vault : List VaultFile) (patterns : List String) (p : String)
    (S a : FileMetadata) (hlm : lm.find p = some S)
    (halm : alm.find p = some a)
    (hguard : pullDeleteGuard rm vault patterns p = true)
    (hmod : pullIsModified lm alm p = true) :
    ({ path := p, modifiedTime := a.modifiedTime } :
        ModifiedDeleteInfo) ∈
      pullModifiedDeletes rm (some lm) alm vault patterns [] := by
  unfold pullModifiedDeletes
  rw [List.mem_flatMap]
  refine ⟨(p, S), SyncMeta.find_mem lm p S hlm, ?_⟩
  unfold pullModifiedDeletesCell
  simp [hguard, hmod, halm, resolutionFor]

/-- A path whose backup write fails is never among the successful
backups. -/
theorem pullSuccessfulBackups_not_contains (vA : List VaultFile)
    (bf : String → Bool) (mds : List ModifiedDeleteInfo) (p : String)
    (hbf : bf p = true) :
    (pullSuccessfulBackups vA bf mds).contains p = false := by
  rcases hc : (pullSuccessfulBackups vA bf mds).contains p
  · rfl
  · exfalso
    have hmem := List.mem_of_elem_eq_true hc
    unfold pullSuccessfulBackups at hmem
    rw [List.mem_map] at hmem
    obtain ⟨md, hmd, hmp⟩ := hmem
    have hf := List.of_mem_filter hmd
    rw [hmp, hbf] at hf
    simp at hf

/-- A modified-deletes path whose file survives the downloads and
whose backup succeeds is among the successful backups. -/
theorem pullSuccessfulBackups_contains (vA : List VaultFile)
    (bf : String → Bool) (mds : List ModifiedDeleteInfo) (q : String)
    (md : ModifiedDeleteInfo) (hmd : md ∈ mds) (hp : md.path = q)
    (hv : (vaultFind vA q).isSome = true) (hbf : bf q = false) :
    (pullSuccessfulBackups vA bf mds).contains q = true := by
  apply List.elem_eq_true_of_mem
  unfold pullSuccessfulBackups
  rw [List.mem_map]
  refine ⟨md, ?_, hp⟩
  rw [List.mem_filter]
  refine ⟨hmd, ?_⟩
  rw [hp, hbf, hv]
  rfl

/-- A tracked path gone from the remote snapshot whose live file is
unmodified is deleted by the incremental pull. -/
theorem performPull_remote_deleted_clean (rm lm : SyncMeta)
    (filesList : List DriveFileInfo) (vault : List VaultFile)
    (patterns : List String) (conflictFolder now : String)
    (bf : String → Bool) (path : String) (S : FileMetadata)
    (vf : VaultFile)
    (hnodup : (vault.map fun f => f.path).Nodup)
    (hlm : lm.find path = some S)
    (hrm : rm.find path = none)
    (hx : shouldExclude path patterns = false)
    (hml : path ≠ META_FILE_NAME_LOCAL)
    (hmr : path ≠ META_FILE_NAME_REMOTE)
    (hv : vaultFind vault path = some vf)
    (hh : vf.hash = S.hash) :
    Op.deleteLocal path ∈ performPull rm filesList []
      (buildMetaFromVault vault patterns now) (some lm) patterns
      conflictFolder vault now bf := by
  have halm := buildMetaFromVault_find_live vault patterns now path vf
    hnodup hv hml hmr hx
  have hmod := pullIsModified_of_eq lm
    (buildMetaFromVault vault patterns now) path
    { hash := vf.hash, modifiedTime := vf.mtime } S halm hlm hh
  have hguard := pullDeleteGuard_holds rm vault patterns path vf hrm hx hv
  have htd := pullToDelete_mem rm lm (buildMetaFromVault vault patterns now)
    vault patterns path S hlm hguard
  have hany : (pullModifiedDeletes rm (some lm)
      (buildMetaFromVault vault patterns now) vault patterns []).any
      (fun d => d.path == path) = false := by
    rcases hca : (pullModifiedDeletes rm (some lm)
        (buildMetaFromVault vault patterns now) vault patterns []).any
        (fun d => d.path == path)
    · rfl
    · exfalso
      rw [List.any_eq_true] at hca
      obtain ⟨md, hmd, hpe⟩ := hca
      have hmp : md.path = path := by simpa using hpe
      have hmod2 := (pullModifiedDeletes_shape rm lm
        (buildMetaFromVault vault patterns now) vault patterns [] md
        hmd).1
      rw [hmp, hmod] at hmod2
      exact Bool.false_ne_true hmod2
  have hva : vaultFind (pullVaultAfter rm filesList (some lm)
      (buildMetaFromVault vault patterns now) [] patterns vault now)
      path = some vf := by
    rw [pullVaultAfter_find rm filesList (some lm)
      (buildMetaFromVault vault patterns now) [] patterns vault now
      path hrm]
    exact hv
  have hcell : pullDeleteOps
      (pullVaultAfter rm filesList (some lm)
        (buildMetaFromVault vault patterns now) [] patterns vault now)
      (pullModifiedDeletes rm (some lm)
        (buildMetaFromVault vault patterns now) vault patterns [])
      (pullSuccessfulBackups
        (pullVaultAfter rm filesList (some lm)
          (buildMetaFromVault vault patterns now) [] patterns vault now)
        bf
        (pullModifiedDeletes rm (some lm)
          (buildMetaFromVault vault patterns now) vault patterns []))
      path = [Op.deleteLocal path] := by
    unfold pullDeleteOps
    rw [if_neg (by simp [hany])]
    rw [hva]
  have hmem4 : Op.deleteLocal path ∈ pullDeletePhase rm filesList
      (some lm) (buildMetaFromVault vault patterns now) [] patterns
      vault now bf := by
    unfold pullDeletePhase
    rw [List.mem_flatMap]
    refine ⟨path, htd, ?_⟩
    rw [hcell]
    exact List.mem_singleton_self _
  unfold performPull
  simp only [List.mem_append]
  exact Or.inl (Or.inl (Or.inr hmem4))

/-- A path gone from the remote snapshot with no live local file is
untouched by the incremental pull. -/
theorem performPull_untouched (rm lm : SyncMeta)
    (filesList : List DriveFileInfo)
    (resolutions : List (String × Resolution)) (alm : SyncMeta)
    (vault : List VaultFile) (patterns : List String)
    (conflictFolder now : String) (bf : String → Bool) (path : String)
    (hv : vaultFind vault path = none)
    (hrm : rm.find path = none) (op : Op)
    (hop : op ∈ performPull rm filesList resolutions alm (some lm)
      patterns conflictFolder vault now bf) :
    op.touchesPath path = false := by
  unfold performPull at hop
  simp only [List.mem_append] at hop
  rcases hop with (((((hop | hop) | hop) | hop) | hop) | hop)
  · rw [List.mem_flatMap] at hop
    obtain ⟨e, he, ho⟩ := hop
    have hep : e.1 ≠ path := SyncMeta.find_eq_none rm path hrm e he
    rcases pullPlanOpsCell_shape _ _ _ _ _ _ _ _ _ _ ho with rfl | rfl <;>
      simp [Op.touchesPath, hep]
  · rw [List.mem_flatMap] at hop
    obtain ⟨p, hp, ho⟩ := hop
    have hpp : p ≠ path := by
      intro h
      subst h
      exact pullToDownload_not_mem rm (some lm) alm resolutions patterns
        p hrm hp
    rcases hf : filesList.find? (fun f => f.name == p) with _ | d <;>
      simp only [hf] at ho
    · cases ho
    · simp only [List.mem_singleton] at ho
      subst ho
      simp [Op.touchesPath, hpp]
  · rw [List.mem_flatMap] at hop
    obtain ⟨info, hinfo, ho⟩ := hop
    have hip : info.path ≠ path := by
      intro h
      have hg := (pullModifiedDeletes_shape rm lm alm vault patterns
        resolutions info hinfo).2
      rw [h] at hg
      unfold pullDeleteGuard at hg
      simp [hv] at hg
    rcases pullBackupOps_shape _ _ _ _ _ _ ho with rfl | rfl <;>
      simp [Op.touchesPath, hip]
  · unfold pullDeletePhase at hop
    rw [List.mem_flatMap] at hop
    obtain ⟨p, hp, ho⟩ := hop
    have hg := pullToDelete_shape rm lm alm vault patterns resolutions
      p hp
    have hpp : p ≠ path := by
      intro h
      rw [h] at hg
      unfold pullDeleteGuard at hg
      simp [hv] at hg
    rw [pullDeleteOps_shape _ _ _ _ _ ho]
    simp [Op.touchesPath, hpp]
  · split at hop
    · cases hop
    · simp only [List.mem_singleton] at hop
      subst hop
      rfl
  · simp only [List.mem_singleton] at hop
    subst hop
    rfl

/-- A tracked path gone from the remote snapshot whose live file was
modified makes `pullChanges` stop at the conflict dialog with a
`remoteDeleted` conflict for that path. -/
theorem pullChanges_remote_deleted_conflict (lm rm : SyncMeta)
    (filesList : List DriveFileInfo) (vault : List VaultFile)
    (patterns : List String) (conflictFolder now : String)
    (bf : String → Bool) (path : String) (S : FileMetadata)
    (vf : VaultFile)
    (hnodup : (vault.map fun f => f.path).Nodup)
    (hlm : lm.find path = some S)
    (hrm : rm.find path = none)
    (hx : shouldExclude path patterns = false)
    (hml : path ≠ META_FILE_NAME_LOCAL)
    (hmr : path ≠ META_FILE_NAME_REMOTE)
    (hv : vaultFind vault path = some vf)
    (hh : vf.hash ≠ S.hash) :
    ∃ cs, pullChanges (some lm) (some rm) filesList vault patterns
        conflictFolder now bf = .conflictDialog cs ∧
      ∃ c ∈ cs, c.path = path ∧ c.remoteDeleted = true := by
  have halm := buildMetaFromVault_find_live vault patterns now path vf
    hnodup hv hml hmr hx
  have hc : ({ path := path, localModifiedTime := vf.mtime,
               remoteModifiedTime := lm.lastUpdatedAt,
               localHash := vf.hash,
               remoteHash := "", remoteDeleted := true } :
        ConflictInfo) ∈
      remoteDeletedConflictsOf lm rm
        (buildMetaFromVault vault patterns now) patterns := by
    unfold remoteDeletedConflictsOf
    rw [List.mem_flatMap]
    refine ⟨(path, S), SyncMeta.find_mem lm path S hlm, ?_⟩
    simp [hx, hrm, halm, hh]
  have hccat : ({ path := path, localModifiedTime := vf.mtime,
                  remoteModifiedTime := lm.lastUpdatedAt,
                  localHash := vf.hash,
                  remoteHash := "", remoteDeleted := true } :
        ConflictInfo) ∈
      remoteDeletedConflictsOf lm rm
        (buildMetaFromVault vault patterns now) patterns ++
      (computeDiff (some lm) (some rm) filesList vault patterns
        now).conflicts :=
    List.mem_append_left _ hc
  have hisEmpty : (remoteDeletedConflictsOf lm rm
        (buildMetaFromVault vault patterns now) patterns ++
      (computeDiff (some lm) (some rm) filesList vault patterns
        now).conflicts).isEmpty = false := by
    rcases hAB : remoteDeletedConflictsOf lm rm
        (buildMetaFromVault vault patterns now) patterns ++
      (computeDiff (some lm) (some rm) filesList vault patterns
        now).conflicts with _ | ⟨x, xs⟩
    · rw [hAB] at hccat
      cases hccat
    · rfl
  refine ⟨remoteDeletedConflictsOf lm rm
      (buildMetaFromVault vault patterns now) patterns ++
    (computeDiff (some lm) (some rm) filesList vault patterns
      now).conflicts, ?_, ⟨_, hccat, rfl, rfl⟩⟩
  simp only [pullChanges]
  rw [if_neg (by simp [hisEmpty])]

/-- Backup gating of the incremental pull's deletion phase: a modified
remote-deleted file whose pre-deletion backup fails is never deleted
and its failure is logged, while another modified remote-deleted file
whose backup succeeds is backed up into the conflict folder and then
deleted. -/
theorem performPull_backup_gating (rm lm : SyncMeta)
    (filesList : List DriveFileInfo) (vault : List VaultFile)
    (patterns : List String) (conflictFolder now : String)
    (bf : String → Bool) (p q : String) (S T : FileMetadata)
    (vf vg : VaultFile)
    (hnodup : (vault.map fun f => f.path).Nodup)
    (hlmp : lm.find p = some S) (hrmp : rm.find p = none)
    (hxp : shouldExclude p patterns = false)
    (hmlp : p ≠ META_FILE_NAME_LOCAL)
    (hmrp : p ≠ META_FILE_NAME_REMOTE)
    (hvp : vaultFind vault p = some vf)
    (hhp : vf.hash ≠ S.hash)
    (hbfp : bf p = true)
    (hlmq : lm.find q = some T) (hrmq : rm.find q = none)
    (hxq : shouldExclude q patterns = false)
    (hmlq : q ≠ META_FILE_NAME_LOCAL)
    (hmrq : q ≠ META_FILE_NAME_REMOTE)
    (hvq : vaultFind vault q = some vg)
    (hhq : vg.hash ≠ T.hash)
    (hbfq : bf q = false) :
    Op.deleteLocal p ∉ performPull rm filesList []
      (buildMetaFromVault vault patterns now) (some lm) patterns
      conflictFolder vault now bf ∧
    Op.logBackupFailure p ∈ performPull rm filesList []
      (buildMetaFromVault vault patterns now) (some lm) patterns
      conflictFolder vault now bf ∧
    Op.saveLocalToConflict q
      (generateConflictFilename q conflictFolder now) ∈
      performPull rm filesList []
        (buildMetaFromVault vault patterns now) (some lm) patterns
        conflictFolder vault now bf ∧
    Op.deleteLocal q ∈ performPull rm filesList []
      (buildMetaFromVault vault patterns now) (some lm) patterns
      conflictFolder vault now bf := by
  have halmp := buildMetaFromVault_find_live vault patterns now p vf
    hnodup hvp hmlp hmrp hxp
  have halmq := buildMetaFromVault_find_live vault patterns now q vg
    hnodup hvq hmlq hmrq hxq
  have hmodp := pullIsModified_of_ne lm
    (buildMetaFromVault vault patterns now) p
    { hash := vf.hash, modifiedTime := vf.mtime } S halmp hlmp hhp
  have hmodq := pullIsModified_of_ne lm
    (buildMetaFromVault vault patterns now) q
    { hash := vg.hash, modifiedTime := vg.mtime } T halmq hlmq hhq
  have hguardp := pullDeleteGuard_holds rm vault patterns p vf hrmp
    hxp hvp
  have hguardq := pullDeleteGuard_holds rm vault patterns q vg hrmq
    hxq hvq
  have hmdp := pullModifiedDeletes_mem rm lm
    (buildMetaFromVault vault patterns now) vault patterns p S
    { hash := vf.hash, modifiedTime := vf.mtime } hlmp halmp hguardp
    hmodp
  have hmdq := pullModifiedDeletes_mem rm lm
    (buildMetaFromVault vault patterns now) vault patterns q T
    { hash := vg.hash, modifiedTime := vg.mtime } hlmq halmq hguardq
    hmodq
  have hvap : vaultFind (pullVaultAfter rm filesList (some lm)
      (buildMetaFromVault vault patterns now) [] patterns vault now)
      p = some vf := by
    rw [pullVaultAfter_find rm filesList (some lm)
      (buildMetaFromVault vault patterns now) [] patterns vault now
      p hrmp]
    exact hvp
  have hvaq : vaultFind (pullVaultAfter rm filesList (some lm)
      (buildMetaFromVault vault patterns now) [] patterns vault now)
      q = some vg := by
    rw [pullVaultAfter_find rm filesList (some lm)
      (buildMetaFromVault vault patterns now) [] patterns vault now
      q hrmq]
    exact hvq
  have hanyp : (pullModifiedDeletes rm (some lm)
      (buildMetaFromVault vault patterns now) vault patterns []).any
      (fun d => d.path == p) = true :=
    List.any_eq_true.mpr ⟨_, hmdp, by simp⟩
  have hcontp := pullSuccessfulBackups_not_contains
    (pullVaultAfter rm filesList (some lm)
      (buildMetaFromVault vault patterns now) [] patterns vault now)
    bf
    (pullModifiedDeletes rm (some lm)
      (buildMetaFromVault vault patterns now) vault patterns [])
    p hbfp
  have hcontq := pullSuccessfulBackups_contains
    (pullVaultAfter rm filesList (some lm)
      (buildMetaFromVault vault patterns now) [] patterns vault now)
    bf
    (pullModifiedDeletes rm (some lm)
      (buildMetaFromVault vault patterns now) vault patterns [])
    q _ hmdq rfl (by rw [hvaq]; rfl) hbfq
  have hcellp : pullDeleteOps
      (pullVaultAfter rm filesList (some lm)
        (buildMetaFromVault vault patterns now) [] patterns vault now)
      (pullModifiedDeletes rm (some lm)
        (buildMetaFromVault vault patterns now) vault patterns [])
      (pullSuccessfulBackups
        (pullVaultAfter rm filesList (some lm)
          (buildMetaFromVault vault patterns now) [] patterns vault now)
        bf
        (pullModifiedDeletes rm (some lm)
          (buildMetaFromVault vault patterns now) vault patterns []))
      p = [] := by
    unfold pullDeleteOps
    rw [if_pos (by rw [hanyp, hcontp]; rfl)]
  have hcellq : pullDeleteOps
      (pullVaultAfter rm filesList (some lm)
        (buildMetaFromVault vault patterns now) [] patterns vault now)
      (pullModifiedDeletes rm (some lm)
        (buildMetaFromVault vault patterns now) vault patterns [])
      (pullSuccessfulBackups
        (pullVaultAfter rm filesList (some lm)
          (buildMetaFromVault vault patterns now) [] patterns vault now)
        bf
        (pullModifiedDeletes rm (some lm)
          (buildMetaFromVault vault patterns now) vault patterns []))
      q = [Op.deleteLocal q] := by
    unfold pullDeleteOps
    rw [if_neg (by rw [hcontq]; simp)]
    rw [hvaq]
  have hbcellp : pullBackupOps
      (pullVaultAfter rm filesList (some lm)
        (buildMetaFromVault vault patterns now) [] patterns vault now)
      conflictFolder now bf
      ({ path := p, modifiedTime := vf.mtime } : ModifiedDeleteInfo) =
      [Op.logBackupFailure p] := by
    unfold pullBackupOps
    simp [hvap, hbfp]
  have hbcellq : pullBackupOps
      (pullVaultAfter rm filesList (some lm)
        (buildMetaFromVault vault patterns now) [] patterns vault now)
      conflictFolder now bf
      ({ path := q, modifiedTime := vg.mtime } : ModifiedDeleteInfo) =
      [Op.saveLocalToConflict q
        (generateConflictFilename q conflictFolder now)] := by
    unfold pullBackupOps
    simp [hvaq, hbfq]
  have htdq := pullToDelete_mem rm lm
    (buildMetaFromVault vault patterns now) vault patterns q T hlmq
    hguardq
  refine ⟨?_, ?_, ?_, ?_⟩
  · intro hop
    unfold performPull at hop
    simp only [List.mem_append] at hop
    rcases hop with (((((hop | hop) | hop) | hop) | hop) | hop)
    · rw [List.mem_flatMap] at hop
      obtain ⟨e, _, ho⟩ := hop
      rcases pullPlanOpsCell_shape _ _ _ _ _ _ _ _ _ _ ho with h | h <;>
        simp at h
    · rw [List.mem_flatMap] at hop
      obtain ⟨r, _, ho⟩ := hop
      rcases hf : filesList.find? (fun f => f.name == r) with _ | d <;>
        simp only [hf] at ho
      · cases ho
      · simp at ho
    · rw [List.mem_flatMap] at hop
      obtain ⟨info, _, ho⟩ := hop
      rcases pullBackupOps_shape _ _ _ _ _ _ ho with h | h <;> simp at h
    · unfold pullDeletePhase at hop
      rw [List.mem_flatMap] at hop
      obtain ⟨r, _, ho⟩ := hop
      have h := pullDeleteOps_shape _ _ _ _ _ ho
      have hr : r = p := by
        have := h.symm
        injection this
      subst hr
      rw [hcellp] at ho
      cases ho
    · split at hop
      · cases hop
      · simp at hop
    · simp at hop
  · unfold performPull
    simp only [List.mem_append]
    refine Or.inl (Or.inl (Or.inl (Or.inr ?_)))
    rw [List.mem_flatMap]
    refine ⟨_, hmdp, ?_⟩
    rw [hbcellp]
    exact List.mem_singleton_self _
  · unfold performPull
    simp only [List.mem_append]
    refine Or.inl (Or.inl (Or.inl (Or.inr ?_)))
    rw [List.mem_flatMap]
    refine ⟨_, hmdq, ?_⟩
    rw [hbcellq]
    exact List.mem_singleton_self _
  · unfold performPull
    simp only [List.mem_append]
    refine Or.inl (Or.inl (Or.inr ?_))
    unfold pullDeletePhase
    rw [List.mem_flatMap]
    refine ⟨q, htdq, ?_⟩
    rw [hcellq]
    exact List.mem_singleton_self _

end GDrive

/-- C1: for a path present in both the live local tree and the remote
listing and tracked in both snapshots with last-common saved hash
`S.hash`, `computeDiff` classifies it as a conflict iff the live local
hash and the remote snapshot hash both differ from `S.hash`; when only
the local side differs the path goes to `toUpload`, when only the
remote side differs it goes to `toDownload`, and in neither one-sided
case is it ever placed in `conflicts`. -/
theorem c1_computeDiff_conflict_iff_both_diverged
    (lm rm : GDrive.SyncMeta) (filesList : List GDrive.DriveFileInfo)
    (vault : List GDrive.VaultFile) (patterns : List String) (now : String)
    (vf : GDrive.VaultFile) (S rInfo : GDrive.FileMetadata)
    (hnodup : (vault.map (·.path)).Nodup)
    (hvf : vf ∈ vault)
    (hx : GDrive.shouldExclude vf.path patterns = false)
    (hml : vf.path ≠ GDrive.META_FILE_NAME_LOCAL)
    (hmr : vf.path ≠ GDrive.META_FILE_NAME_REMOTE)
    (hdf : ∃ df ∈ filesList, df.name = vf.path)
    (hS : lm.find vf.path = some S)
    (hR : rm.find vf.path = some rInfo) :
    ((∃ c ∈ (GDrive.computeDiff (some lm) (some rm) filesList vault
        patterns now).conflicts, c.path = vf.path) ↔
      (vf.hash ≠ S.hash ∧ rInfo.hash ≠ S.hash)) ∧
    (vf.hash ≠ S.hash → rInfo.hash = S.hash →
      vf.path ∈ (GDrive.computeDiff (some lm) (some rm) filesList vault
          patterns now).toUpload ∧
        ¬ ∃ c ∈ (GDrive.computeDiff (some lm) (some rm) filesList vault
          patterns now).conflicts, c.path = vf.path) ∧
    (vf.hash = S.hash → rInfo.hash ≠ S.hash →
      vf.path ∈ (GDrive.computeDiff (some lm) (some rm) filesList vault
          patterns now).toDownload ∧
        ¬ ∃ c ∈ (GDrive.computeDiff (some lm) (some rm) filesList vault
          patterns now).conflicts, c.path = vf.path) := by
  have hlfp : vf.path ∈ GDrive.localFilePathsOf vault patterns :=
    (GDrive.mem_localFilePathsOf vault patterns vf.path).mpr
      ⟨vf, hvf, rfl, hx, hml⟩
  have hrfp : vf.path ∈ GDrive.remoteFilePathsOf filesList patterns := by
    obtain ⟨df, hdfm, hdfe⟩ := hdf
    exact (GDrive.mem_remoteFilePathsOf filesList patterns vf.path).mpr
      ⟨df, hdfm, hdfe, by rw [hdfe]; exact hmr, by rw [hdfe]; exact hx⟩
  have hcont : (GDrive.remoteFilePathsOf filesList patterns).contains vf.path
      = true := by simpa using hrfp
  have hclm := GDrive.buildMetaFromVault_find vault patterns now vf
    hnodup hvf hml hmr hx
  have hiff : (∃ c ∈ (GDrive.computeDiff (some lm) (some rm) filesList vault
      patterns now).conflicts, c.path = vf.path) ↔
      (vf.hash ≠ S.hash ∧ rInfo.hash ≠ S.hash) := by
    rw [GDrive.computeDiff_conflicts]
    constructor
    · rintro ⟨c, hcmem, hcp⟩
      rw [List.mem_flatMap] at hcmem
      obtain ⟨q, hq, hcq⟩ := hcmem
      have hcpq := GDrive.localConflictCell_path _ _ _ _ _ _ hcq
      rw [hcp] at hcpq
      rw [← hcpq] at hcq
      simp [GDrive.localConflictCell, hcont, hrfp, hclm, hS, hR,
        GDrive.localChangedB, GDrive.remoteChangedB] at hcq
      tauto
    · rintro ⟨h1, h2⟩
      have hc : ∃ c ∈ GDrive.localConflictCell (some lm) (some rm)
          (GDrive.buildMetaFromVault vault patterns now)
          (GDrive.remoteFilePathsOf filesList patterns) vf.path,
          c.path = vf.path := by
        simp [GDrive.localConflictCell, hcont, hrfp, hclm, hS, hR,
          GDrive.localChangedB, GDrive.remoteChangedB, h1, h2]
      obtain ⟨c, hcm, hcp⟩ := hc
      exact ⟨c, List.mem_flatMap.mpr ⟨vf.path, hlfp, hcm⟩, hcp⟩
  refine ⟨hiff, fun h1 h2 => ⟨?_, fun hex => ((hiff.mp hex).2) h2⟩,
    fun h1 h2 => ⟨?_, fun hex => ((hiff.mp hex).1) h1⟩⟩
  · rw [GDrive.computeDiff_toUpload]
    refine List.mem_flatMap.mpr ⟨vf.path, hlfp, ?_⟩
    simp [GDrive.localUploadCell, hcont, hrfp, hclm, hS, hR,
      GDrive.localChangedB, GDrive.remoteChangedB, h1, h2]
  · rw [GDrive.computeDiff_toDownload]
    refine List.mem_append_left _ (List.mem_flatMap.mpr ⟨vf.path, hlfp, ?_⟩)
    simp [GDrive.localDownloadCell, hcont, hrfp, hclm, hS, hR,
      GDrive.localChangedB, GDrive.remoteChangedB, h1, h2]

/-- Witness for C1 at a concrete input: live local hash `h1` and remote
snapshot hash `h2` both differ from the saved hash `h0`, so the path is
classified as a conflict. -/
theorem c1_computeDiff_conflict_witness :
    ∃ c ∈ (GDrive.computeDiff (some c1lm) (some c1rm) c1files c1vault []
        "T").conflicts, c.path = "note.md" :=
  (c1_computeDiff_conflict_iff_both_diverged c1lm c1rm c1files c1vault [] "T"
      { path := "note.md", hash := "h1", mtime := "t1" }
      { hash := "h0", modifiedTime := "t0" }
      { hash := "h2", modifiedTime := "t2" }
      (by decide) (by decide) (by decide) (by decide) (by decide)
      ⟨{ id := "id1", name := "note.md", modifiedTime := "t2",
         contentHash := "h2" }, by decide, rfl⟩
      (by decide) (by decide)).1.mpr ⟨by decide, by decide⟩

/-- C9: exclusion matching is monotone under path extension — if a
pattern matches a path, it matches every extension of that path,
because the compiled regular expression is never anchored at the end;
consequently a pattern that excludes a folder path also excludes every
file beneath that folder via `shouldExclude`. -/
theorem c9_matchGlob_monotone_under_extension (path suffix pattern : String)
    (patterns : List String) :
    (GDrive.matchGlob path pattern = true →
      GDrive.matchGlob (path ++ suffix) pattern = true) ∧
    (GDrive.shouldExclude path patterns = true →
      GDrive.shouldExclude (path ++ suffix) patterns = true) :=
  ⟨GDrive.matchGlob_extend path suffix pattern,
   GDrive.shouldExclude_extend path suffix patterns⟩

/-- Witness for C9: the pattern `folder` matches `folder/x` and hence
also the deeper path `folder/x/note.md`. -/
theorem c9_matchGlob_monotone_witness :
    GDrive.matchGlob "folder/x" "folder" = true ∧
    GDrive.matchGlob ("folder/x" ++ "/note.md") "folder" = true ∧
    GDrive.shouldExclude "folder/x" ["folder"] = true ∧
    GDrive.shouldExclude ("folder/x" ++ "/note.md") ["folder"] = true :=
  ⟨by decide,
   (c9_matchGlob_monotone_under_extension "folder/x" "/note.md" "folder"
     ["folder"]).1 (by decide),
   by decide,
   (c9_matchGlob_monotone_under_extension "folder/x" "/note.md" "folder"
     ["folder"]).2 (by decide)⟩

/-- C10: a pattern that is empty or whitespace-only is trimmed to the
empty pattern and matches no path at all; hence an empty-string entry
in the exclusion list changes nothing about `shouldExclude`. -/
theorem c10_empty_pattern_matches_nothing (path pattern : String)
    (patterns : List String)
    (hws : pattern.toList.all Char.isWhitespace = true) :
    GDrive.matchGlob path pattern = false ∧
    GDrive.shouldExclude path ("" :: patterns) =
      GDrive.shouldExclude path patterns := by
  have htrim : GDrive.trimChars pattern.toList = [] := by
    unfold GDrive.trimChars
    rw [List.dropWhile_eq_nil_iff.mpr
      (fun x hx => (List.all_eq_true.mp hws) x hx)]
    simp
  have hempty : ∀ q : String, q.toList = [] →
      GDrive.matchGlob path q = false := by
    intro q hq
    unfold GDrive.matchGlob
    rw [hq]
    rfl
  constructor
  · unfold GDrive.matchGlob
    rw [htrim]
  · show (("" :: patterns).any fun p => GDrive.matchGlob path p) = _
    rw [List.any_cons, hempty "" rfl]
    simp [GDrive.shouldExclude]

/-- Witness for C10: the whitespace pattern `"  "` excludes nothing. -/
theorem c10_empty_pattern_witness :
    GDrive.matchGlob "a/b.md" "  " = false ∧
    GDrive.shouldExclude "a/b.md" ("" :: ["a"]) =
      GDrive.shouldExclude "a/b.md" ["a"] :=
  c10_empty_pattern_matches_nothing "a/b.md" "  " ["a"] (by decide)

/-- C2: the incremental-push precondition gate — remote snapshot absent
⇒ Full Push; local snapshot absent (remote present) ⇒ pull-required
error with no transfer; remote snapshot strictly newer ⇒ push blocked
behind a pull; otherwise the incremental push proceeds (conflict dialog
or `performPush`). -/
theorem c2_pushChanges_gate (lm rm : GDrive.SyncMeta)
    (filesList : List GDrive.DriveFileInfo) (vault : List GDrive.VaultFile)
    (patterns : List String) (now : String) :
    (∀ lmOpt : Option GDrive.SyncMeta,
      GDrive.pushChanges lmOpt none filesList vault patterns now =
        .fullPush (GDrive.pushAll none filesList vault patterns now)) ∧
    (GDrive.pushChanges none (some rm) filesList vault patterns now =
      .pullRequiredError) ∧
    (GDrive.jsLtb lm.lastUpdatedAt rm.lastUpdatedAt = true →
      GDrive.pushChanges (some lm) (some rm) filesList vault patterns now =
        .blockedRemoteNewer) ∧
    (GDrive.jsLtb lm.lastUpdatedAt rm.lastUpdatedAt = false →
      (∃ tr, GDrive.pushChanges (some lm) (some rm) filesList vault patterns
          now = .pushed tr) ∨
      (∃ cs, GDrive.pushChanges (some lm) (some rm) filesList vault patterns
          now = .conflictDialog cs)) := by
  refine ⟨fun lmOpt => rfl, rfl, fun h => ?_, fun h => ?_⟩
  · simp [GDrive.pushChanges, h]
  · by_cases hc : (GDrive.computeDiff (some lm) (some rm) filesList vault
        patterns now).conflicts.isEmpty
    · refine Or.inl ⟨GDrive.performPush
        (GDrive.buildMetaFromVault vault patterns now) (some rm) filesList
        [] vault now, ?_⟩
      simp [GDrive.pushChanges, h, hc]
    · refine Or.inr ⟨(GDrive.computeDiff (some lm) (some rm) filesList
        vault patterns now).conflicts, ?_⟩
      simp [GDrive.pushChanges, h, hc]

/-- Witness for C2 at concrete inputs: an empty vault with local
snapshot stamped `2024-01-01…` and remote snapshot stamped
`2024-01-02…` hits all four gate rows. -/
theorem c2_pushChanges_gate_witness :
    (GDrive.pushChanges
        (some { lastUpdatedAt := "2024-01-01", lastSyncTimestamp := "t",
                files := [] }) none [] [] [] "T" =
      .fullPush (GDrive.pushAll none [] [] [] "T")) ∧
    (GDrive.pushChanges none
        (some { lastUpdatedAt := "2024-01-02", lastSyncTimestamp := "t",
                files := [] }) [] [] [] "T" = .pullRequiredError) ∧
    (GDrive.pushChanges
        (some { lastUpdatedAt := "2024-01-01", lastSyncTimestamp := "t",
                files := [] })
        (some { lastUpdatedAt := "2024-01-02", lastSyncTimestamp := "t",
                files := [] }) [] [] [] "T" = .blockedRemoteNewer) ∧
    ((∃ tr, GDrive.pushChanges
        (some { lastUpdatedAt := "2024-01-02", lastSyncTimestamp := "t",
                files := [] })
        (some { lastUpdatedAt := "2024-01-02", lastSyncTimestamp := "t",
                files := [] }) [] [] [] "T" = .pushed tr) ∨
      (∃ cs, GDrive.pushChanges
        (some { lastUpdatedAt := "2024-01-02", lastSyncTimestamp := "t",
                files := [] })
        (some { lastUpdatedAt := "2024-01-02", lastSyncTimestamp := "t",
                files := [] }) [] [] [] "T" = .conflictDialog cs)) :=
  ⟨(c2_pushChanges_gate
      { lastUpdatedAt := "2024-01-01", lastSyncTimestamp := "t", files := [] }
      { lastUpdatedAt := "2024-01-02", lastSyncTimestamp := "t", files := [] }
      [] [] [] "T").1 _,
   (c2_pushChanges_gate
      { lastUpdatedAt := "2024-01-01", lastSyncTimestamp := "t", files := [] }
      { lastUpdatedAt := "2024-01-02", lastSyncTimestamp := "t", files := [] }
      [] [] [] "T").2.1,
   (c2_pushChanges_gate
      { lastUpdatedAt := "2024-01-01", lastSyncTimestamp := "t", files := [] }
      { lastUpdatedAt := "2024-01-02", lastSyncTimestamp := "t", files := [] }
      [] [] [] "T").2.2.1 (by decide),
   (c2_pushChanges_gate
      { lastUpdatedAt := "2024-01-02", lastSyncTimestamp := "t", files := [] }
      { lastUpdatedAt := "2024-01-02", lastSyncTimestamp := "t", files := [] }
      [] [] [] "T").2.2.2 (by decide)⟩

/-- C8: an incremental push never issues a remote delete, and a tracked
path whose local file has been deleted since the last sync is left
untouched on the remote — `performPush` emits no upload, no overwrite
and no rename for it (nor any rename or remote delete at all), so the
remote object merely becomes untracked. -/
theorem c8_performPush_never_deletes_remote
    (rmOpt : Option GDrive.SyncMeta) (filesList : List GDrive.DriveFileInfo)
    (resolutions : List (String × GDrive.Resolution))
    (vault : List GDrive.VaultFile) (patterns : List String)
    (now path : String)
    (hdel : GDrive.vaultFind vault path = none) :
    ∀ op ∈ GDrive.performPush (GDrive.buildMetaFromVault vault patterns now)
        rmOpt filesList resolutions vault now,
      (∀ id, op ≠ .deleteRemote id) ∧
      op ≠ .uploadNew path ∧ op ≠ .modifyRemote path ∧
      (∀ id newName, op ≠ .renameRemote id newName) := by
  intro op hop
  unfold GDrive.performPush at hop
  rw [List.mem_append] at hop
  rcases hop with hop | hop
  · rw [List.mem_flatMap] at hop
    obtain ⟨p, _, hopp⟩ := hop
    cases hv : GDrive.vaultFind vault p with
    | none => rw [hv] at hopp; simp at hopp
    | some _ =>
      have hpne : p ≠ path := by
        intro hEq
        rw [hEq, hdel] at hv
        cases hv
      rw [hv] at hopp
      cases hf : filesList.find? (fun f => f.name == p) with
      | none =>
        rw [hf] at hopp
        simp only [List.mem_singleton] at hopp
        subst hopp
        exact ⟨fun _ => by simp, by simp [hpne], by simp, fun _ _ => by simp⟩
      | some _ =>
        rw [hf] at hopp
        simp only [List.mem_singleton] at hopp
        subst hopp
        exact ⟨fun _ => by simp, by simp, by simp [hpne], fun _ _ => by simp⟩
  · split at hop
    · simp only [List.mem_cons, List.mem_singleton, List.not_mem_nil,
        or_false] at hop
      rcases hop with rfl | rfl
      · exact ⟨fun _ => by simp, by simp, by simp, fun _ _ => by simp⟩
      · exact ⟨fun _ => by simp, by simp, by simp, fun _ _ => by simp⟩
    · simp at hop

/-- Witness for C8: with live file `a.md` and deleted file `b.md`, the
push trace's upload of `a.md` is none of the forbidden operations for
`b.md`. -/
theorem c8_performPush_witness :
    GDrive.Op.uploadNew "a.md" ∈
      GDrive.performPush
        (GDrive.buildMetaFromVault [{ path := "a.md", hash := "h", mtime := "t" }] [] "T")
        none [] [] [{ path := "a.md", hash := "h", mtime := "t" }] "T" ∧
    ((∀ id, GDrive.Op.uploadNew "a.md" ≠ GDrive.Op.deleteRemote id) ∧
      GDrive.Op.uploadNew "a.md" ≠ GDrive.Op.uploadNew "b.md" ∧
      GDrive.Op.uploadNew "a.md" ≠ GDrive.Op.modifyRemote "b.md" ∧
      (∀ id newName,
        GDrive.Op.uploadNew "a.md" ≠ GDrive.Op.renameRemote id newName)) :=
  ⟨by decide,
   c8_performPush_never_deletes_remote none [] []
     [{ path := "a.md", hash := "h", mtime := "t" }] [] "T" "b.md"
     (by decide) (GDrive.Op.uploadNew "a.md") (by decide)⟩

/-- C5: during Full Push, a live file whose remote object exists with
an equal recorded hash causes zero uploads and zero renames for that
path; with a differing recorded hash the remote object is first renamed
to the timestamped untracked name and only then is the file uploaded
fresh; with no remote object the file is uploaded directly. -/
theorem c5_pushAll_skip_rename_upload
    (rm : GDrive.SyncMeta) (filesList : List GDrive.DriveFileInfo)
    (vault : List GDrive.VaultFile) (patterns : List String) (now : String)
    (f : GDrive.VaultFile) (df : GDrive.DriveFileInfo)
    (rInfo : GDrive.FileMetadata)
    (hvf : f ∈ vault)
    (hx : GDrive.shouldExclude f.path patterns = false)
    (hml : f.path ≠ GDrive.META_FILE_NAME_LOCAL)
    (hmr : f.path ≠ GDrive.META_FILE_NAME_REMOTE)
    (hnodup : (vault.map (·.path)).Nodup)
    (hids : (filesList.map (·.id)).Nodup) :
    (filesList.find? (fun d => d.name == f.path) = some df →
      rm.find f.path = some rInfo → f.hash = rInfo.hash →
      ∀ op ∈ GDrive.pushAll (some rm) filesList vault patterns now,
        op ≠ .uploadNew f.path ∧ op ≠ .modifyRemote f.path ∧
        ∀ newName, op ≠ .renameRemote df.id newName) ∧
    (filesList.find? (fun d => d.name == f.path) = some df →
      rm.find f.path = some rInfo → f.hash ≠ rInfo.hash →
      ∃ pre post, GDrive.pushAll (some rm) filesList vault patterns now =
        pre ++ [.renameRemote df.id
            (GDrive.generateUntrackedFilename f.path now),
          .uploadNew f.path] ++ post) ∧
    (filesList.find? (fun d => d.name == f.path) = none →
      ∃ pre post, GDrive.pushAll (some rm) filesList vault patterns now =
        pre ++ [.uploadNew f.path] ++ post) := by
  have hinj := List.inj_on_of_nodup_map hnodup
  have hidsinj := List.inj_on_of_nodup_map hids
  have hmemfiles : f ∈ vault.filter (fun g =>
      !GDrive.shouldExclude g.path patterns
        && !(g.path == GDrive.META_FILE_NAME_LOCAL)
        && !(g.path == GDrive.META_FILE_NAME_REMOTE)) :=
    List.mem_filter.mpr ⟨hvf, by simp [hx, hml, hmr]⟩
  refine ⟨?_, ?_, ?_⟩
  · intro hdf hrec heq op hop
    have hdfname : df.name = f.path := by
      simpa using List.find?_some hdf
    have hdfmem : df ∈ filesList := List.mem_of_find?_eq_some hdf
    unfold GDrive.pushAll at hop
    rw [List.mem_append] at hop
    rcases hop with hop | hop
    · rw [List.mem_flatMap] at hop
      obtain ⟨g, hg, hopg⟩ := hop
      have hgv : g ∈ vault := List.mem_of_mem_filter hg
      by_cases hgp : g.path = f.path
      · have hgf : g = f := hinj hgv hvf hgp
        subst hgf
        unfold GDrive.pushAllFileOps at hopg
        simp [hdf, hrec, heq] at hopg
      · cases hfind : filesList.find? (fun d => d.name == g.path) with
        | none =>
          unfold GDrive.pushAllFileOps at hopg
          rw [hfind] at hopg
          simp only [List.mem_singleton] at hopg
          subst hopg
          exact ⟨by simp [hgp], by simp, fun _ => by simp⟩
        | some dg =>
          have hdgname : dg.name = g.path := by
            simpa using List.find?_some hfind
          have hdgmem : dg ∈ filesList := List.mem_of_find?_eq_some hfind
          have hdgid : dg.id ≠ df.id := by
            intro hEq
            exact hgp (by rw [← hdgname, ← hdfname, hidsinj hdgmem hdfmem hEq])
          unfold GDrive.pushAllFileOps at hopg
          rw [hfind] at hopg
          cases hrm2 : rm.find g.path with
          | none =>
            simp only [Option.some_bind, hrm2, List.mem_singleton] at hopg
            subst hopg
            exact ⟨by simp [hgp], by simp, fun _ => by simp⟩
          | some ri =>
            simp only [Option.some_bind, hrm2] at hopg
            split at hopg
            · simp at hopg
            · simp only [List.mem_cons, List.mem_singleton,
                List.not_mem_nil, or_false] at hopg
              rcases hopg with rfl | rfl
              · exact ⟨by simp, by simp, fun _ => by simp [hdgid]⟩
              · exact ⟨by simp [hgp], by simp, fun _ => by simp⟩
    · simp only [List.mem_cons, List.mem_singleton, List.not_mem_nil,
        or_false] at hop
      rcases hop with rfl | rfl
      · exact ⟨by simp, by simp, fun _ => by simp⟩
      · exact ⟨by simp, by simp, fun _ => by simp⟩
  · intro hdf hrec hne
    obtain ⟨s, t, hst⟩ := List.append_of_mem hmemfiles
    have hcell : GDrive.pushAllFileOps (some rm) filesList now f =
        [.renameRemote df.id (GDrive.generateUntrackedFilename f.path now),
         .uploadNew f.path] := by
      unfold GDrive.pushAllFileOps
      rw [hdf]
      simp only [Option.some_bind, hrec]
      rw [if_neg (by simpa using hne)]
    refine ⟨s.flatMap (GDrive.pushAllFileOps (some rm) filesList now),
      t.flatMap (GDrive.pushAllFileOps (some rm) filesList now) ++
        [GDrive.Op.writeLocalMeta
            { GDrive.buildMetaFromVault vault patterns now with
              lastSyncTimestamp := now, lastUpdatedAt := now },
         GDrive.Op.writeRemoteMeta
            { GDrive.buildMetaFromVault vault patterns now with
              lastSyncTimestamp := now, lastUpdatedAt := now }], ?_⟩
    unfold GDrive.pushAll
    rw [hst, List.flatMap_append, List.flatMap_cons, hcell]
    simp
  · intro hdf
    obtain ⟨s, t, hst⟩ := List.append_of_mem hmemfiles
    have hcell : GDrive.pushAllFileOps (some rm) filesList now f =
        [.uploadNew f.path] := by
      unfold GDrive.pushAllFileOps
      rw [hdf]
    refine ⟨s.flatMap (GDrive.pushAllFileOps (some rm) filesList now),
      t.flatMap (GDrive.pushAllFileOps (some rm) filesList now) ++
        [GDrive.Op.writeLocalMeta
            { GDrive.buildMetaFromVault vault patterns now with
              lastSyncTimestamp := now, lastUpdatedAt := now },
         GDrive.Op.writeRemoteMeta
            { GDrive.buildMetaFromVault vault patterns now with
              lastSyncTimestamp := now, lastUpdatedAt := now }], ?_⟩
    unfold GDrive.pushAll
    rw [hst, List.flatMap_append, List.flatMap_cons, hcell]
    simp

/-- Witness for C5 at a concrete input: the remote object for `a.md`
records the live hash, so the Full Push trace holds only the snapshot
writes, and in particular the local-snapshot write is not an upload of
`a.md`. -/
theorem c5_pushAll_skip_witness :
    (GDrive.Op.writeLocalMeta
        { GDrive.buildMetaFromVault c5vault [] "T" with
          lastSyncTimestamp := "T", lastUpdatedAt := "T" } ∈
      GDrive.pushAll (some c5rm) c5files c5vault [] "T") ∧
    GDrive.Op.writeLocalMeta
        { GDrive.buildMetaFromVault c5vault [] "T" with
          lastSyncTimestamp := "T", lastUpdatedAt := "T" } ≠
      GDrive.Op.uploadNew "a.md" :=
  ⟨by decide,
   ((c5_pushAll_skip_rename_upload c5rm c5files c5vault [] "T"
      { path := "a.md", hash := "h", mtime := "t" }
      { id := "id1", name := "a.md", modifiedTime := "t2", contentHash := "h" }
      { hash := "h", modifiedTime := "t0" }
      (by decide) (by decide) (by decide) (by decide) (by decide)
      (by decide)).1 (by decide) (by decide) rfl _ (by decide)).1⟩

/-- Counterexample to C6 as stated: the local file `a.md` exists (hash
`h1`, different content than the remote object), Full Pull overwrites
it with the download, yet the trace holds no conflict-folder copy at
all — the guard `remoteMeta.files[driveFile.name]` fails because the
remote snapshot has no record for `a.md` (an untracked remote object),
so the prior content is lost. -/
theorem c6_counterexample :
    (GDrive.vaultFind c6vault "a.md").isSome = true ∧
    GDrive.Op.download "a.md" ∈
      GDrive.pullAll c6rm c6files c6vault [] "sync_conflicts" "T" ∧
    (GDrive.pullAll c6rm c6files c6vault [] "sync_conflicts" "T").all
      (fun op => ! op.isConflictSave) = true := by
  refine ⟨by decide, by decide, by decide⟩

/-- C6 amended: during Full Pull, a remote object whose path carries a
remote-snapshot record and a local file with the same hash is skipped;
with a differing hash the local file is first copied into the conflict
folder and only then overwritten by the download; a path with a local
file but **no** remote-snapshot record is overwritten without any
backup; a path with no local file is downloaded directly; and Full Pull
never deletes a local file. -/
theorem c6_pullAll_amended (rm : GDrive.SyncMeta)
    (filesList : List GDrive.DriveFileInfo) (vault : List GDrive.VaultFile)
    (patterns : List String) (conflictFolder now : String)
    (df : GDrive.DriveFileInfo) (lf : GDrive.VaultFile)
    (rInfo : GDrive.FileMetadata)
    (hdf : df ∈ filesList)
    (hmr : df.name ≠ GDrive.META_FILE_NAME_REMOTE)
    (hx : GDrive.shouldExclude df.name patterns = false)
    (hnames : (filesList.map (·.name)).Nodup) :
    (GDrive.vaultFind vault df.name = some lf →
      rm.find df.name = some rInfo → lf.hash = rInfo.hash →
      ∀ op ∈ GDrive.pullAll rm filesList vault patterns conflictFolder now,
        op ≠ .download df.name ∧
        ∀ conflictPath, op ≠ .saveLocalToConflict df.name conflictPath) ∧
    (GDrive.vaultFind vault df.name = some lf →
      rm.find df.name = some rInfo → lf.hash ≠ rInfo.hash →
      ∃ pre post,
        GDrive.pullAll rm filesList vault patterns conflictFolder now =
          pre ++ [.saveLocalToConflict df.name
              (GDrive.generateConflictFilename df.name conflictFolder now),
            .download df.name] ++ post) ∧
    (GDrive.vaultFind vault df.name = none →
      ∃ pre post,
        GDrive.pullAll rm filesList vault patterns conflictFolder now =
          pre ++ [.download df.name] ++ post) ∧
    (GDrive.vaultFind vault df.name = some lf → rm.find df.name = none →
      (∃ pre post,
        GDrive.pullAll rm filesList vault patterns conflictFolder now =
          pre ++ [.download df.name] ++ post) ∧
      ∀ op ∈ GDrive.pullAll rm filesList vault patterns conflictFolder now,
        ∀ conflictPath, op ≠ .saveLocalToConflict df.name conflictPath) ∧
    (∀ op ∈ GDrive.pullAll rm filesList vault patterns conflictFolder now,
      ∀ p, op ≠ .deleteLocal p) := by
  have hninj := List.inj_on_of_nodup_map hnames
  have hmemfiles : df ∈ filesList.filter (fun g =>
      !(g.name == GDrive.META_FILE_NAME_REMOTE)
        && !GDrive.shouldExclude g.name patterns) :=
    List.mem_filter.mpr ⟨hdf, by simp [hmr, hx]⟩
  have hsplit : ∀ cell, GDrive.pullAllFileOps rm vault conflictFolder now df
        = cell →
      ∃ pre post,
        GDrive.pullAll rm filesList vault patterns conflictFolder now =
          pre ++ cell ++ post := by
    intro cell hcell
    obtain ⟨s, t, hst⟩ := List.append_of_mem hmemfiles
    refine ⟨s.flatMap (GDrive.pullAllFileOps rm vault conflictFolder now),
      t.flatMap (GDrive.pullAllFileOps rm vault conflictFolder now) ++
        [GDrive.Op.writeLocalMeta { rm with lastSyncTimestamp := now }], ?_⟩
    unfold GDrive.pullAll
    rw [hst, List.flatMap_append, List.flatMap_cons, hcell]
    simp
  have hnotouch : ∀ op ∈ GDrive.pullAll rm filesList vault patterns
        conflictFolder now,
      (op = GDrive.Op.download df.name ∨
        (∃ cp, op = GDrive.Op.saveLocalToConflict df.name cp)) →
      op ∈ GDrive.pullAllFileOps rm vault conflictFolder now df := by
    intro op hop hshape
    unfold GDrive.pullAll at hop
    rw [List.mem_append] at hop
    rcases hop with hop | hop
    · rw [List.mem_flatMap] at hop
      obtain ⟨dg, hdg, hopg⟩ := hop
      have hdgm : dg ∈ filesList := List.mem_of_mem_filter hdg
      by_cases hname : dg.name = df.name
      · have hdgdf : dg = df := hninj hdgm hdf hname
        subst hdgdf
        exact hopg
      · rcases GDrive.pullAllFileOps_shape rm vault conflictFolder now dg
            op hopg with rfl | rfl
        · rcases hshape with hEq | ⟨cp, hEq⟩
          · exact absurd (by injection hEq) hname
          · exact absurd hEq (by simp)
        · rcases hshape with hEq | ⟨cp, hEq⟩
          · exact absurd hEq (by simp)
          · exact absurd (by injection hEq) hname
    · simp only [List.mem_singleton] at hop
      subst hop
      rcases hshape with hEq | ⟨cp, hEq⟩ <;> exact absurd hEq (by simp)
  refine ⟨?_, ?_, ?_, ?_, ?_⟩
  · intro hv hr he op hop
    have hcell : GDrive.pullAllFileOps rm vault conflictFolder now df
        = [] := by
      unfold GDrive.pullAllFileOps
      simp only [hv, hr]
      rw [if_pos (by simpa using he)]
    constructor
    · intro hEq
      have := hnotouch op hop (Or.inl hEq)
      rw [hcell] at this
      simp at this
    · intro cp hEq
      have := hnotouch op hop (Or.inr ⟨cp, hEq⟩)
      rw [hcell] at this
      simp at this
  · intro hv hr hne
    refine hsplit _ ?_
    unfold GDrive.pullAllFileOps
    simp only [hv, hr]
    rw [if_neg (by simpa using hne)]
  · intro hv
    refine hsplit _ ?_
    unfold GDrive.pullAllFileOps
    simp only [hv]
  · intro hv hr
    have hcell : GDrive.pullAllFileOps rm vault conflictFolder now df
        = [.download df.name] := by
      unfold GDrive.pullAllFileOps
      simp only [hv, hr]
    refine ⟨hsplit _ hcell, ?_⟩
    intro op hop cp hEq
    have := hnotouch op hop (Or.inr ⟨cp, hEq⟩)
    rw [hcell] at this
    simp only [List.mem_singleton] at this
    rw [this] at hEq
    cases hEq
  · intro op hop p
    unfold GDrive.pullAll at hop
    rw [List.mem_append] at hop
    rcases hop with hop | hop
    · rw [List.mem_flatMap] at hop
      obtain ⟨dg, _, hopg⟩ := hop
      rcases GDrive.pullAllFileOps_shape rm vault conflictFolder now dg
          op hopg with rfl | rfl <;> simp
    · simp only [List.mem_singleton] at hop
      subst hop
      simp

/-- Witness for the amended C6: a tracked path with differing local and
recorded hashes is backed up into the conflict folder and then
overwritten. -/
theorem c6_pullAll_amended_witness :
    ∃ pre post,
      GDrive.pullAll
        { lastUpdatedAt := "t", lastSyncTimestamp := "t"
          files := [("a.md", { hash := "h2", modifiedTime := "t0" })] }
        [{ id := "id1", name := "a.md", modifiedTime := "t2",
           contentHash := "h2" }]
        [{ path := "a.md", hash := "h1", mtime := "t" }] []
        "sync_conflicts" "T" =
        pre ++ [GDrive.Op.saveLocalToConflict "a.md"
            (GDrive.generateConflictFilename "a.md" "sync_conflicts" "T"),
          GDrive.Op.download "a.md"] ++ post :=
  (c6_pullAll_amended
      { lastUpdatedAt := "t", lastSyncTimestamp := "t"
        files := [("a.md", { hash := "h2", modifiedTime := "t0" })] }
      [{ id := "id1", name := "a.md", modifiedTime := "t2",
         contentHash := "h2" }]
      [{ path := "a.md", hash := "h1", mtime := "t" }] []
      "sync_conflicts" "T"
      { id := "id1", name := "a.md", modifiedTime := "t2",
        contentHash := "h2" }
      { path := "a.md", hash := "h1", mtime := "t" }
      { hash := "h2", modifiedTime := "t0" }
      (by decide) (by decide) (by decide) (by decide)).2.1
    (by decide) (by decide) (by decide)

/-- Counterexample to C4 as stated: with both snapshots present, the
remote one newer by timestamp only and no differing files, `pullChanges`
reaches `performPull` with an empty transfer list, yet the local
snapshot is rewritten — its persisted `lastUpdatedAt` changes from
`2024-01-01` to `2024-01-02` with zero transfers performed. -/
theorem c4_counterexample :
    GDrive.pullChanges
        (some { lastUpdatedAt := "2024-01-01", lastSyncTimestamp := "t",
                files := [] })
        (some { lastUpdatedAt := "2024-01-02", lastSyncTimestamp := "t",
                files := [] })
        [] [] [] "sync_conflicts" "T" (fun _ => false) =
      .pulled [GDrive.Op.writeLocalMeta
        { lastUpdatedAt := "2024-01-02", lastSyncTimestamp := "T",
          files := [] }] ∧
    (GDrive.Op.writeLocalMeta
        { lastUpdatedAt := "2024-01-02", lastSyncTimestamp := "T",
          files := [] }).isTransfer = false ∧
    ("2024-01-02" : String) ≠ ("2024-01-01" : String) := by
  refine ⟨by decide, by decide, by decide⟩

/-- C4 amended: for an incremental Push run on the snapshot built from
the live vault, the trace is all transfers followed by the two snapshot
writes, and the writes happen exactly when at least one transfer does;
an incremental Pull, however, always ends by rewriting the local
snapshot — even when its transfer list is empty — and never writes the
remote snapshot. -/
theorem c4_commit_gating_amended (rmOpt : Option GDrive.SyncMeta)
    (rm : GDrive.SyncMeta) (filesList : List GDrive.DriveFileInfo)
    (resolutions : List (String × GDrive.Resolution))
    (actualLocalMeta : GDrive.SyncMeta) (lmOpt : Option GDrive.SyncMeta)
    (vault : List GDrive.VaultFile) (patterns : List String)
    (conflictFolder now : String) (backupFails : String → Bool) :
    (∃ a b, GDrive.performPush
        (GDrive.buildMetaFromVault vault patterns now) rmOpt filesList
        resolutions vault now = a ++ b ∧
      (∀ op ∈ a, op.isTransfer = true) ∧
      (∀ op ∈ b, op.isMetaWrite = true) ∧
      (a = [] ↔ b = [])) ∧
    (∃ pre m, GDrive.performPull rm filesList resolutions actualLocalMeta
        lmOpt patterns conflictFolder vault now backupFails =
        pre ++ [GDrive.Op.writeLocalMeta m] ∧
      (∀ op ∈ pre, op.isMetaWrite = false) ∧
      (∀ op ∈ pre, ∀ mm, op ≠ GDrive.Op.writeRemoteMeta mm)) :=
  ⟨GDrive.performPush_commit_gated rmOpt filesList resolutions vault
      patterns now,
   GDrive.performPull_trace_shape rm filesList resolutions actualLocalMeta
      lmOpt patterns conflictFolder vault now backupFails⟩

/-- C3: for a path tracked in the local snapshot but absent from the
remote snapshot (remote deleted), the incremental Pull deletes the
local file when the live local hash equals the local snapshot hash;
raises a conflict flagged `remoteDeleted` (stopping at the conflict
dialog, so the modified file is never silently deleted) when the live
hash differs; and touches nothing at that path — neither an operation
of `performPull` nor a `remoteDeleted` conflict — when the file is
already absent locally. -/
theorem c3_pull_remote_deleted_rows (lm rm : GDrive.SyncMeta)
    (filesList : List GDrive.DriveFileInfo)
    (vault : List GDrive.VaultFile) (patterns : List String)
    (conflictFolder now : String) (bf : String → Bool)
    (path : String) (S : GDrive.FileMetadata)
    (hnodup : (vault.map fun f => f.path).Nodup)
    (hlm : lm.find path = some S)
    (hrm : rm.find path = none)
    (hx : GDrive.shouldExclude path patterns = false)
    (hml : path ≠ GDrive.META_FILE_NAME_LOCAL)
    (hmr : path ≠ GDrive.META_FILE_NAME_REMOTE) :
    (∀ vf, GDrive.vaultFind vault path = some vf → vf.hash = S.hash →
      GDrive.Op.deleteLocal path ∈
        GDrive.performPull rm filesList []
          (GDrive.buildMetaFromVault vault patterns now) (some lm)
          patterns conflictFolder vault now bf) ∧
    (∀ vf, GDrive.vaultFind vault path = some vf → vf.hash ≠ S.hash →
      ∃ cs, GDrive.pullChanges (some lm) (some rm) filesList vault
          patterns conflictFolder now bf =
          GDrive.PullOutcome.conflictDialog cs ∧
        ∃ c ∈ cs, c.path = path ∧ c.remoteDeleted = true) ∧
    (GDrive.vaultFind vault path = none →
      (∀ op ∈ GDrive.performPull rm filesList []
          (GDrive.buildMetaFromVault vault patterns now) (some lm)
          patterns conflictFolder vault now bf,
        GDrive.Op.touchesPath op path = false) ∧
      ∀ c ∈ GDrive.remoteDeletedConflictsOf lm rm
          (GDrive.buildMetaFromVault vault patterns now) patterns,
        c.path ≠ path) := by
  refine ⟨?_, ?_, ?_⟩
  · intro vf hv hh
    exact GDrive.performPull_remote_deleted_clean rm lm filesList vault
      patterns conflictFolder now bf path S vf hnodup hlm hrm hx hml hmr
      hv hh
  · intro vf hv hh
    exact GDrive.pullChanges_remote_deleted_conflict lm rm filesList
      vault patterns conflictFolder now bf path S vf hnodup hlm hrm hx
      hml hmr hv hh
  · intro hv
    refine ⟨?_, ?_⟩
    · intro op hop
      exact GDrive.performPull_untouched rm lm filesList []
        (GDrive.buildMetaFromVault vault patterns now) vault patterns
        conflictFolder now bf path hv hrm op hop
    · intro c hcmem hcp
      have hs := (GDrive.remoteDeletedConflictsOf_shape lm rm
        (GDrive.buildMetaFromVault vault patterns now) patterns c
        hcmem).1
      rw [hcp, GDrive.buildMetaFromVault_find_none vault patterns now
        path hv] at hs
      simp at hs

/-- C3 witness: a concrete unmodified remote-deleted file really is
deleted by the pull. -/
theorem c3_pull_remote_deleted_rows_witness :
    GDrive.Op.deleteLocal "a.md" ∈
      GDrive.performPull
        { lastUpdatedAt := "2", lastSyncTimestamp := "2", files := [] }
        [] []
        (GDrive.buildMetaFromVault
          [{ path := "a.md", hash := "h0", mtime := "1" }] [] "3")
        (some { lastUpdatedAt := "1", lastSyncTimestamp := "1",
                files := [("a.md",
                  { hash := "h0", modifiedTime := "1" })] })
        [] "cf"
        [{ path := "a.md", hash := "h0", mtime := "1" }] "3"
        (fun _ => false) :=
  (c3_pull_remote_deleted_rows
      { lastUpdatedAt := "1", lastSyncTimestamp := "1",
        files := [("a.md", { hash := "h0", modifiedTime := "1" })] }
      { lastUpdatedAt := "2", lastSyncTimestamp := "2", files := [] }
      [] [{ path := "a.md", hash := "h0", mtime := "1" }] [] "cf" "3"
      (fun _ => false) "a.md" { hash := "h0", modifiedTime := "1" }
      (by decide) (by decide) (by decide) (by decide) (by decide)
      (by decide)).1
    { path := "a.md", hash := "h0", mtime := "1" } (by decide) rfl

/-- C7: during the incremental Pull, when the pre-deletion backup of a
locally-modified file slated for deletion fails, that file's local
deletion is skipped and the failure is logged into the trace instead
of aborting the batch, while another modified file whose backup
succeeds is still backed up into the conflict folder and then
deleted. -/
theorem c7_backup_failure_gating (rm lm : GDrive.SyncMeta)
    (filesList : List GDrive.DriveFileInfo)
    (vault : List GDrive.VaultFile) (patterns : List String)
    (conflictFolder now : String) (bf : String → Bool)
    (p q : String) (S T : GDrive.FileMetadata)
    (vf vg : GDrive.VaultFile)
    (hnodup : (vault.map fun f => f.path).Nodup)
    (hlmp : lm.find p = some S) (hrmp : rm.find p = none)
    (hxp : GDrive.shouldExclude p patterns = false)
    (hmlp : p ≠ GDrive.META_FILE_NAME_LOCAL)
    (hmrp : p ≠ GDrive.META_FILE_NAME_REMOTE)
    (hvp : GDrive.vaultFind vault p = some vf)
    (hhp : vf.hash ≠ S.hash)
    (hbfp : bf p = true)
    (hlmq : lm.find q = some T) (hrmq : rm.find q = none)
    (hxq : GDrive.shouldExclude q patterns = false)
    (hmlq : q ≠ GDrive.META_FILE_NAME_LOCAL)
    (hmrq : q ≠ GDrive.META_FILE_NAME_REMOTE)
    (hvq : GDrive.vaultFind vault q = some vg)
    (hhq : vg.hash ≠ T.hash)
    (hbfq : bf q = false) :
    GDrive.Op.deleteLocal p ∉ GDrive.performPull rm filesList []
      (GDrive.buildMetaFromVault vault patterns now) (some lm) patterns
      conflictFolder vault now bf ∧
    GDrive.Op.logBackupFailure p ∈ GDrive.performPull rm filesList []
      (GDrive.buildMetaFromVault vault patterns now) (some lm) patterns
      conflictFolder vault now bf ∧
    GDrive.Op.saveLocalToConflict q
      (GDrive.generateConflictFilename q conflictFolder now) ∈
      GDrive.performPull rm filesList []
        (GDrive.buildMetaFromVault vault patterns now) (some lm)
        patterns conflictFolder vault now bf ∧
    GDrive.Op.deleteLocal q ∈ GDrive.performPull rm filesList []
      (GDrive.buildMetaFromVault vault patterns now) (some lm) patterns
      conflictFolder vault now bf :=
  GDrive.performPull_backup_gating rm lm filesList vault patterns
    conflictFolder now bf p q S T vf vg hnodup hlmp hrmp hxp hmlp hmrp
    hvp hhp hbfp hlmq hrmq hxq hmlq hmrq hvq hhq hbfq

/-- C7 witness: with `a.md` and `b.md` both modified and slated for
deletion and only `a.md`'s backup failing, `a.md` is not deleted but
logged, while `b.md` is backed up and deleted. -/
theorem c7_backup_failure_gating_witness :
    GDrive.Op.deleteLocal "a.md" ∉ GDrive.performPull
      { lastUpdatedAt := "2", lastSyncTimestamp := "2", files := [] }
      [] []
      (GDrive.buildMetaFromVault
        [{ path := "a.md", hash := "h1", mtime := "1" },
         { path := "b.md", hash := "h2", mtime := "1" }] [] "3")
      (some { lastUpdatedAt := "1", lastSyncTimestamp := "1",
              files := [("a.md", { hash := "h0", modifiedTime := "1" }),
                ("b.md", { hash := "h3", modifiedTime := "1" })] })
      [] "cf"
      [{ path := "a.md", hash := "h1", mtime := "1" },
       { path := "b.md", hash := "h2", mtime := "1" }] "3"
      (fun s => s == "a.md") ∧
    GDrive.Op.logBackupFailure "a.md" ∈ GDrive.performPull
      { lastUpdatedAt := "2", lastSyncTimestamp := "2", files := [] }
      [] []
      (GDrive.buildMetaFromVault
        [{ path := "a.md", hash := "h1", mtime := "1" },
         { path := "b.md", hash := "h2", mtime := "1" }] [] "3")
      (some { lastUpdatedAt := "1", lastSyncTimestamp := "1",
              files := [("a.md", { hash := "h0", modifiedTime := "1" }),
                ("b.md", { hash := "h3", modifiedTime := "1" })] })
      [] "cf"
      [{ path := "a.md", hash := "h1", mtime := "1" },
       { path := "b.md", hash := "h2", mtime := "1" }] "3"
      (fun s => s == "a.md") ∧
    GDrive.Op.saveLocalToConflict "b.md"
      (GDrive.generateConflictFilename "b.md" "cf" "3") ∈
      GDrive.performPull
        { lastUpdatedAt := "2", lastSyncTimestamp := "2", files := [] }
        [] []
        (GDrive.buildMetaFromVault
          [{ path := "a.md", hash := "h1", mtime := "1" },
           { path := "b.md", hash := "h2", mtime := "1" }] [] "3")
        (some { lastUpdatedAt := "1", lastSyncTimestamp := "1",
                files := [("a.md",
                  { hash := "h0", modifiedTime := "1" }),
                  ("b.md", { hash := "h3", modifiedTime := "1" })] })
        [] "cf"
        [{ path := "a.md", hash := "h1", mtime := "1" },
         { path := "b.md", hash := "h2", mtime := "1" }] "3"
        (fun s => s == "a.md") ∧
    GDrive.Op.deleteLocal "b.md" ∈ GDrive.performPull
      { lastUpdatedAt := "2", lastSyncTimestamp := "2", files := [] }
      [] []
      (GDrive.buildMetaFromVault
        [{ path := "a.md", hash := "h1", mtime := "1" },
         { path := "b.md", hash := "h2", mtime := "1" }] [] "3")
      (some { lastUpdatedAt := "1", lastSyncTimestamp := "1",
              files := [("a.md", { hash := "h0", modifiedTime := "1" }),
                ("b.md", { hash := "h3", modifiedTime := "1" })] })
      [] "cf"
      [{ path := "a.md", hash := "h1", mtime := "1" },
       { path := "b.md", hash := "h2", mtime := "1" }] "3"
      (fun s => s == "a.md") :=
  c7_backup_failure_gating
    { lastUpdatedAt := "2", lastSyncTimestamp := "2", files := [] }
    { lastUpdatedAt := "1", lastSyncTimestamp := "1",
      files := [("a.md", { hash := "h0", modifiedTime := "1" }),
        ("b.md", { hash := "h3", modifiedTime := "1" })] }
    []
    [{ path := "a.md", hash := "h1", mtime := "1" },
     { path := "b.md", hash := "h2", mtime := "1" }]
    [] "cf" "3" (fun s => s == "a.md") "a.md" "b.md"
    { hash := "h0", modifiedTime := "1" }
    { hash := "h3", modifiedTime := "1" }
    { path := "a.md", hash := "h1", mtime := "1" }
    { path := "b.md", hash := "h2", mtime := "1" }
    (by decide) (by decide) (by decide) (by decide) (by decide)
    (by decide) (by decide) (by decide) (by decide) (by decide)
    (by decide) (by decide) (by decide) (by decide) (by decide)
    (by decide) (by decide)
